import Mathlib

/-!
Verification of the option-resolution and transport-assembly core of the
`log-factory` repository (`src/log-facotry.ts`, `src/utils.ts`, `src/types.ts`).

The development shallowly embeds the TypeScript source in Lean:

* Node's `path.posix` string functions (`normalize`, `resolve`, `join`), which
  `utils.ts` wraps, are modelled on `List Char` following Node's documented
  semantics (segment splitting, `.`/`..` elimination, trailing-separator and
  absolute-prefix handling).
* `utils.ts` (`createSafePath`, `joinSafePaths`, `createSafePathWithSuffix`,
  `getDefaultLogPath`, `createBytes`, `MB`) is translated directly; the ambient
  `process.cwd()` is passed explicitly as a `cwd` argument.
* `log-facotry.ts` (`defaultOptions`, `isValidEnvironment`, option merging via
  object spread and `??`/truthiness, transport construction and
  `prettyConsoleFormat` with a model of `JSON.parse` / `JSON.stringify`)
  is translated with JavaScript's `undefined`-vs-absent distinction kept:
  a caller option field is `Option (Option α)` (`none` = key absent,
  `some none` = key present with value `undefined`, `some (some v)` = value).
* Fallible code returns `Except LogError`.
-/

namespace LogFactory

/-! ## POSIX path model (Node `path.posix`, external collaborator of `utils.ts`) -/

/-- The character `{` (written via its code point to keep it out of literals). -/
def lbrace : Char := Char.ofNat 123

/-- The character `}`. -/
def rbrace : Char := Char.ofNat 125

/-- The two-character segment `..`. -/
def dotdot : List Char := ['.', '.']

/-- Split a character list on `/`, keeping empty segments
(`splitSegs "a//b".data = ["a", "", "b"]`, and the empty list splits to `[""]`),
exactly as Node's path parsing sees segments. -/
def splitSegs : List Char → List (List Char)
  | [] => [[]]
  | c :: cs =>
    if c = '/' then [] :: splitSegs cs
    else
      match splitSegs cs with
      | [] => [[c]]
      | s :: ss => (c :: s) :: ss

/-- Join segments with `/` separators (inverse of `splitSegs` on well-formed
segment lists). -/
def joinSegs : List (List Char) → List Char
  | [] => []
  | [s] => s
  | s :: ss => s ++ '/' :: joinSegs ss

/-- A POSIX path is absolute iff it starts with `/`. -/
def isAbsoluteL (p : List Char) : Bool :=
  match p with
  | [] => false
  | c :: _ => c == '/'

/-- Whether the path ends with a `/` separator. -/
def hasTrailingL (p : List Char) : Bool :=
  match p.getLast? with
  | some c => c == '/'
  | none => false

/-- One step of Node's `normalizeString` segment machine. The accumulator is
the stack of output segments, most recent first. Empty and `.` segments are
dropped; `..` pops a non-`..` segment, and is kept only when `allowAboveRoot`
is set (relative paths). -/
def normStep (allow : Bool) (acc : List (List Char)) (seg : List Char) : List (List Char) :=
  if seg = [] ∨ seg = ['.'] then acc
  else if seg = dotdot then
    match acc with
    | [] => if allow then [dotdot] else []
    | top :: tl => if top = dotdot then (if allow then dotdot :: acc else acc) else tl
  else seg :: acc

/-- Normalize a segment list: run the `normStep` machine and restore order. -/
def normSegs (allow : Bool) (segs : List (List Char)) : List (List Char) :=
  (segs.foldl (normStep allow) []).reverse

/-- Node `path.posix.normalize` on character lists. -/
def normalizeL (p : List Char) : List Char :=
  if p = [] then ['.']
  else
    let isAbs := isAbsoluteL p
    let trailing := hasTrailingL p
    let body := joinSegs (normSegs (!isAbs) (splitSegs p))
    if body = [] then
      if isAbs then ['/'] else if trailing then ['.', '/'] else ['.']
    else
      (if isAbs then '/' :: body else body) ++ (if trailing then ['/'] else [])

/-- Final assembly step of Node `path.posix.resolve`: normalize with
`allowAboveRoot = !abs` and prepend `/` when the resolution is absolute. -/
def finishResolve (segs : List (List Char)) (abs : Bool) : List Char :=
  let body := joinSegs (normSegs (!abs) segs)
  if abs then (if body = [] then ['/'] else '/' :: body)
  else (if body = [] then ['.'] else body)

/-- Node `path.posix.resolve(cwd, p)` where `cwd` stands for `process.cwd()`
(so the implicit final fallback of `resolve` prepends the same `cwd`).
In Node `process.cwd()` is always a non-empty absolute path; the degenerate
branches are kept only to make the function total. -/
def resolveL (cwd p : List Char) : List Char :=
  if isAbsoluteL p then finishResolve (splitSegs p) true
  else if cwd = [] then finishResolve (splitSegs p) false
  else if isAbsoluteL cwd then finishResolve (splitSegs (cwd ++ '/' :: p)) true
  else finishResolve (splitSegs (cwd ++ '/' :: (cwd ++ '/' :: p))) false

/-- Node `path.posix.join(...parts)`: drop empty arguments, interleave `/`,
then normalize; all-empty input yields `"."`. -/
def pathJoinL (ps : List (List Char)) : List Char :=
  let ne := ps.filter (fun s => !s.isEmpty)
  if ne.isEmpty then ['.'] else normalizeL (joinSegs ne)

/-! ## `utils.ts` -/

/-- String-level `path.normalize`. -/
def posixNormalize (p : String) : String := String.mk (normalizeL p.data)

/-- String-level `path.isAbsolute`. -/
def isAbsolute (p : String) : Bool := isAbsoluteL p.data

/-- `createSafePath` from `src/utils.ts`: normalize, then resolve against the
current working directory when the normalized path is not absolute. -/
def createSafePath (cwd filePath : String) : String :=
  let normalizedPath := posixNormalize filePath
  if isAbsolute normalizedPath then normalizedPath
  else String.mk (resolveL cwd.data normalizedPath.data)

/-- `joinSafePaths` from `src/utils.ts`: `createSafePath(path.join(...paths))`. -/
def joinSafePaths (cwd : String) (paths : List String) : String :=
  createSafePath cwd (String.mk (pathJoinL (paths.map String.data)))

/-- `getDefaultLogPath` from `src/utils.ts`:
`joinSafePaths(createSafePath(process.cwd()), 'logs')`. -/
def getDefaultLogPath (cwd : String) : String :=
  joinSafePaths cwd [createSafePath cwd cwd, "logs"]

/-- `createSafePathWithSuffix` from `src/utils.ts`: string concatenation
re-validated through `createSafePath`. -/
def createSafePathWithSuffix (cwd : String) (basePath suffix : String) : String :=
  createSafePath cwd (basePath ++ suffix)

/-- Error taxonomy of the core (spec section 7). -/
inductive LogError where
  | invalidEnvironment (msg : String)
  | invalidSize (msg : String)
  | directoryCreationError (msg : String)
  deriving DecidableEq

/-- `createBytes` from `src/utils.ts`: rejects negative sizes. -/
def createBytes (bytes : Int) : Except LogError Int :=
  if bytes < 0 then Except.error (LogError.invalidSize "Bytes cannot be negative")
  else Except.ok bytes

/-- The numeric value `n * 1024 * 1024` used by `MB`. -/
def MBval (size : Int) : Int := size * 1024 * 1024

/-- `MB` from `src/utils.ts`: `createBytes(size * 1024 * 1024)`. -/
def MB (size : Int) : Except LogError Int := createBytes (MBval size)

/-! ## `types.ts` and the defaults table of `log-facotry.ts` -/

/-- Log levels of the `config.levels` table in `log-facotry.ts`. -/
inductive LogLevel where
  | error | debug | warn | data | info | verbose | silly
  deriving DecidableEq

/-- The `config.levels` priority table. -/
def configLevels : List (LogLevel × Nat) :=
  [(LogLevel.error, 0), (LogLevel.debug, 1), (LogLevel.warn, 2), (LogLevel.data, 3),
   (LogLevel.info, 4), (LogLevel.verbose, 5), (LogLevel.silly, 6)]

/-- The recognized environments (`Environment` in `types.ts`). -/
inductive Environment where
  | development | production | test
  deriving DecidableEq

/-- Concrete shape of one entry of the `defaultOptions` table: the source
object literal defines exactly these ten keys for every environment. -/
structure EnvDefaults where
  level : LogLevel
  enableConsoleLogging : Bool
  enableFileLogging : Bool
  prettyPrint : Bool
  colorize : Bool
  maxFileSize : Int
  maxFiles : Int
  separateErrorLog : Bool
  separateWarnLog : Bool
  useDailyRotation : Bool
  deriving DecidableEq

/-- The `defaultOptions` table from `log-facotry.ts` (the `MB` calls there
always succeed, yielding the `MBval` constants). -/
def defaultOptions : Environment → EnvDefaults
  | Environment.development =>
    { level := LogLevel.debug
      enableConsoleLogging := true
      enableFileLogging := true
      prettyPrint := true
      colorize := true
      maxFileSize := MBval 5
      maxFiles := 5
      separateErrorLog := true
      separateWarnLog := true
      useDailyRotation := false }
  | Environment.production =>
    { level := LogLevel.info
      enableConsoleLogging := false
      enableFileLogging := true
      prettyPrint := false
      colorize := false
      maxFileSize := MBval 10
      maxFiles := 10
      separateErrorLog := true
      separateWarnLog := false
      useDailyRotation := true }
  | Environment.test =>
    { level := LogLevel.debug
      enableConsoleLogging := false
      enableFileLogging := true
      prettyPrint := false
      colorize := false
      maxFileSize := MBval 1
      maxFiles := 2
      separateErrorLog := true
      separateWarnLog := false
      useDailyRotation := false }

/-- `isValidEnvironment` from `log-facotry.ts`:
`['development', 'production', 'test'].includes(env)`. -/
def isValidEnvironment (env : String) : Bool :=
  env = "development" || env = "production" || env = "test"

/-- Parse a recognized environment name. -/
def parseEnvironment (env : String) : Option Environment :=
  if env = "development" then some Environment.development
  else if env = "production" then some Environment.production
  else if env = "test" then some Environment.test
  else none

/-! ## Transports

File and console transports as assembled by `createLogger`. Winston format
objects are opaque to the core; a caller-supplied `customFormat` is modelled
as an abstract identifier, and the built-in console format by the two flags
that select its behaviour. Custom transports are likewise opaque values that
the factory appends unmodified. -/

/-- Options shared by every file transport (`baseFileOptions` in the source). -/
structure FileOpts where
  maxsize : Int
  maxFiles : Option Int
  zippedArchive : Bool
  tailable : Bool
  deriving DecidableEq

/-- The format handed to the console transport: `customFormat || consoleFormat`,
where the built-in `consoleFormat` is determined by the truthiness of
`prettyPrint` and `colorize`. -/
inductive ConsoleFmt where
  | custom (id : Nat)
  | builtin (prettyPrint : Bool) (colorize : Bool)
  deriving DecidableEq

/-- A transport pushed onto the `transports` array by `createLogger`. -/
inductive Transport where
  | console (format : ConsoleFmt)
  | dailyRotateFile (filename : String) (datePattern : String) (opts : FileOpts)
  | file (filename : String) (level : Option LogLevel) (opts : FileOpts)
  | custom (id : Nat)
  deriving DecidableEq

/-- Caller-supplied options (`Partial<LoggerOptions>` from `types.ts`).
Each field is `Option (Option α)`: the outer layer records whether the key is
present on the object (JavaScript object spread copies present keys even when
their value is `undefined`), the inner layer whether the value is defined. -/
structure LoggerOptions where
  logName : Option (Option String) := none
  level : Option (Option LogLevel) := none
  logDirectory : Option (Option String) := none
  enableFileLogging : Option (Option Bool) := none
  maxFileSize : Option (Option Int) := none
  maxFiles : Option (Option Int) := none
  separateErrorLog : Option (Option Bool) := none
  separateWarnLog : Option (Option Bool) := none
  useDailyRotation : Option (Option Bool) := none
  enableConsoleLogging : Option (Option Bool) := none
  prettyPrint : Option (Option Bool) := none
  colorize : Option (Option Bool) := none
  timestampFormat : Option (Option String) := none
  locale : Option (Option String) := none
  silent : Option (Option Bool) := none
  handleExceptions : Option (Option Bool) := none
  handleRejections : Option (Option Bool) := none
  customTransports : Option (Option (List Transport)) := none
  customFormat : Option (Option Nat) := none
  deriving DecidableEq

/-- The all-absent caller options object (`createLogger()` / `createLogger({})`). -/
def emptyOptions : LoggerOptions := {}

/-- `MergedLoggerOptions` from `types.ts`: `logName`, `logDirectory` and
`maxFileSize` are guaranteed present; every other field may still be
`undefined` (`none`). -/
structure MergedLoggerOptions where
  logName : String
  logDirectory : String
  maxFileSize : Int
  level : Option LogLevel
  enableFileLogging : Option Bool
  maxFiles : Option Int
  separateErrorLog : Option Bool
  separateWarnLog : Option Bool
  useDailyRotation : Option Bool
  enableConsoleLogging : Option Bool
  prettyPrint : Option Bool
  colorize : Option Bool
  timestampFormat : Option String
  locale : Option String
  silent : Option Bool
  handleExceptions : Option Bool
  handleRejections : Option Bool
  customTransports : Option (List Transport)
  customFormat : Option Nat
  deriving DecidableEq

/-- Object-spread semantics for one field with an environment default:
a key present on the caller object (defined or not) overrides the default. -/
def spreadField {α : Type} (dflt : α) (caller : Option (Option α)) : Option α :=
  match caller with
  | none => some dflt
  | some v => v

/-- Object-spread semantics for a field the defaults table does not define. -/
def passField {α : Type} (caller : Option (Option α)) : Option α :=
  match caller with
  | none => none
  | some v => v

/-- JavaScript `??` over a possibly-absent, possibly-`undefined` field. -/
def nullishField {α : Type} (caller : Option (Option α)) (fallback : α) : α :=
  match caller with
  | some (some v) => v
  | _ => fallback

/-- Truthiness of a possibly-absent string field (`options.logDirectory ? _ : _`):
absent, `undefined` and the empty string are all falsy. -/
def truthyStringField (caller : Option (Option String)) : Bool :=
  match caller with
  | some (some s) => !s.isEmpty
  | _ => false

/-- Truthiness of a resolved optional boolean (`undefined` is falsy). -/
def truthy (o : Option Bool) : Bool := o.getD false

/-- The `finalOptions` merge in `createLogger`:
`{...defaultEnvOptions, ...options, logName: options.logName ?? 'app',
logDirectory: safeLogDirectory,
maxFileSize: options.maxFileSize ?? defaultEnvOptions.maxFileSize ?? MB(5)}`. -/
def finalOptions (env : Environment) (cwd : String) (options : LoggerOptions) :
    MergedLoggerOptions :=
  let d := defaultOptions env
  { logName := nullishField options.logName "app"
    logDirectory :=
      if truthyStringField options.logDirectory then
        createSafePath cwd (nullishField options.logDirectory "")
      else getDefaultLogPath cwd
    maxFileSize := nullishField options.maxFileSize d.maxFileSize
    level := spreadField d.level options.level
    enableFileLogging := spreadField d.enableFileLogging options.enableFileLogging
    maxFiles := spreadField d.maxFiles options.maxFiles
    separateErrorLog := spreadField d.separateErrorLog options.separateErrorLog
    separateWarnLog := spreadField d.separateWarnLog options.separateWarnLog
    useDailyRotation := spreadField d.useDailyRotation options.useDailyRotation
    enableConsoleLogging := spreadField d.enableConsoleLogging options.enableConsoleLogging
    prettyPrint := spreadField d.prettyPrint options.prettyPrint
    colorize := spreadField d.colorize options.colorize
    timestampFormat := passField options.timestampFormat
    locale := passField options.locale
    silent := passField options.silent
    handleExceptions := passField options.handleExceptions
    handleRejections := passField options.handleRejections
    customTransports := passField options.customTransports
    customFormat := passField options.customFormat }

/-- The console format chosen by `createLogger`: `customFormat || consoleFormat`. -/
def consoleFormatChoice (f : MergedLoggerOptions) : ConsoleFmt :=
  match f.customFormat with
  | some id => ConsoleFmt.custom id
  | none => ConsoleFmt.builtin (truthy f.prettyPrint) (truthy f.colorize)

/-- The `baseFileOptions` object shared by all file transports. -/
def baseFileOptions (f : MergedLoggerOptions) : FileOpts :=
  { maxsize := f.maxFileSize
    maxFiles := f.maxFiles
    zippedArchive := true
    tailable := true }

/-- The transport list assembled by `createLogger`, in push order: console,
then the file transports (rotated or combined, then error, then warn), then
the caller's custom transports. -/
def buildTransports (cwd : String) (f : MergedLoggerOptions) : List Transport :=
  let logDir := joinSafePaths cwd [f.logDirectory, f.logName]
  let ts : List Transport := []
  let ts := if truthy f.enableConsoleLogging then
      ts ++ [Transport.console (consoleFormatChoice f)]
    else ts
  let ts := if truthy f.enableFileLogging then
      let createLogPath := fun (suffix : String) =>
        createSafePathWithSuffix cwd (joinSafePaths cwd [logDir, f.logName]) suffix
      let ts := if truthy f.useDailyRotation then
          ts ++ [Transport.dailyRotateFile (createLogPath "-%DATE%.log") "YYYY-MM-DD"
                  (baseFileOptions f)]
        else ts ++ [Transport.file (createLogPath "-All.log") none (baseFileOptions f)]
      let ts := if truthy f.separateErrorLog then
          ts ++ [Transport.file (createLogPath "-error.log") (some LogLevel.error)
                  (baseFileOptions f)]
        else ts
      if truthy f.separateWarnLog then
        ts ++ [Transport.file (createLogPath "-warn.log") (some LogLevel.warn)
                (baseFileOptions f)]
      else ts
    else ts
  match f.customTransports with
  | some cts => ts ++ cts
  | none => ts

/-- Observable result of a successful `createLogger` call: the warning about a
missing `NODE_ENV`, the directory handed to `fs.mkdirSync`, and the fields
passed to `winston.createLogger`. -/
structure LoggerResult where
  warned : Bool
  logDir : String
  levels : List (LogLevel × Nat)
  level : LogLevel
  silent : Option Bool
  handleExceptions : Option Bool
  handleRejections : Option Bool
  transports : List Transport
  topFormat : Option Nat
  deriving DecidableEq

/-- `createLogger` from `log-facotry.ts`. `nodeEnv` is the ambient
`process.env.NODE_ENV` (`none` = unset) and `cwd` is `process.cwd()`.
`process.env.NODE_ENV || 'development'` treats the empty string as falsy, and
the warning fires whenever `!process.env.NODE_ENV` (unset or empty). The
filesystem `mkdirSync` side effect is recorded as the `logDir` field. -/
def createLoggerModel (nodeEnv : Option String) (cwd : String)
    (options : LoggerOptions) : Except LogError LoggerResult :=
  let envRaw := match nodeEnv with
    | none => ""
    | some s => s
  let env := if envRaw = "" then "development" else envRaw
  let warned := envRaw = ""
  match parseEnvironment env with
  | none => Except.error (LogError.invalidEnvironment ("Invalid environment: " ++ env))
  | some e =>
    let f := finalOptions e cwd options
    let logDir := joinSafePaths cwd [f.logDirectory, f.logName]
    Except.ok
      { warned := warned
        logDir := logDir
        levels := configLevels
        level := f.level.getD LogLevel.info
        silent := f.silent
        handleExceptions := f.handleExceptions
        handleRejections := f.handleRejections
        transports := buildTransports cwd f
        topFormat := f.customFormat }

/-- Whether an `Except` result is a success. -/
def exceptOk {ε α : Type} : Except ε α → Bool
  | Except.ok _ => true
  | Except.error _ => false

/-! ## JSON model (ECMA-404 `JSON.parse` / `JSON.stringify`, external
collaborators of `prettyConsoleFormat`)

Numbers are kept as their source text rather than as IEEE doubles, so the
numeric re-canonicalisation `JSON.stringify(JSON.parse("1.50"))` would perform
is not modelled; all theorems about the pretty transform therefore restrict
object values to strings, where the model is exact. A `\u` escape denoting a
lone UTF-16 surrogate maps through `Char.ofNat` (which yields `\0` for
invalid scalars) instead of a surrogate code unit. -/

/-- A parsed JSON value. Object entries keep insertion order. -/
inductive Json where
  | null
  | bool (b : Bool)
  | num (raw : List Char)
  | str (s : String)
  | arr (elems : List Json)
  | obj (entries : List (String × Json))

/-- Skip JSON whitespace. -/
def skipWs (s : List Char) : List Char :=
  s.dropWhile (fun c => c == ' ' || c == '\t' || c == '\n' || c == '\r')

/-- Value of a hexadecimal digit. -/
def hexDigitVal (c : Char) : Option Nat :=
  if c.isDigit then some (c.toNat - 48)
  else if 'a' ≤ c ∧ c ≤ 'f' then some (c.toNat - 87)
  else if 'A' ≤ c ∧ c ≤ 'F' then some (c.toNat - 55)
  else none

/-- Parse the body of a JSON string after the opening quote, returning the
decoded characters and the input after the closing quote. -/
def parseStr : Nat → List Char → Option (List Char × List Char)
  | 0, _ => none
  | fuel + 1, s =>
    match s with
    | [] => none
    | c :: cs =>
      if c = '"' then some ([], cs)
      else if c = '\\' then
        match cs with
        | e :: cs2 =>
          let dec : Option (Char × List Char) :=
            if e = '"' then some ('"', cs2)
            else if e = '\\' then some ('\\', cs2)
            else if e = '/' then some ('/', cs2)
            else if e = 'b' then some (Char.ofNat 8, cs2)
            else if e = 'f' then some (Char.ofNat 12, cs2)
            else if e = 'n' then some ('\n', cs2)
            else if e = 'r' then some ('\r', cs2)
            else if e = 't' then some ('\t', cs2)
            else if e = 'u' then
              match cs2 with
              | h1 :: h2 :: h3 :: h4 :: cs3 =>
                match hexDigitVal h1, hexDigitVal h2, hexDigitVal h3, hexDigitVal h4 with
                | some a, some b, some c3, some d =>
                  some (Char.ofNat (((a * 16 + b) * 16 + c3) * 16 + d), cs3)
                | _, _, _, _ => none
              | _ => none
            else none
          match dec with
          | some (ch, rest) =>
            match parseStr fuel rest with
            | some (str, r) => some (ch :: str, r)
            | none => none
          | none => none
        | [] => none
      else if c.toNat < 32 then none
      else
        match parseStr fuel cs with
        | some (str, r) => some (c :: str, r)
        | none => none

/-- Fraction and exponent suffix of a JSON number. -/
def parseNumTail (raw : List Char) (s : List Char) : Option (List Char × List Char) :=
  let fr : Option (List Char × List Char) :=
    match s with
    | '.' :: cs =>
      let (ds, rest) := cs.span Char.isDigit
      if ds.isEmpty then none else some (raw ++ '.' :: ds, rest)
    | _ => some (raw, s)
  match fr with
  | none => none
  | some (raw2, s2) =>
    match s2 with
    | c :: cs =>
      if c = 'e' ∨ c = 'E' then
        let (sgn, cs2) : List Char × List Char :=
          match cs with
          | '+' :: r => (['+'], r)
          | '-' :: r => (['-'], r)
          | _ => ([], cs)
        let (ds, rest) := cs2.span Char.isDigit
        if ds.isEmpty then none else some (raw2 ++ c :: (sgn ++ ds), rest)
      else some (raw2, s2)
    | [] => some (raw2, s2)

/-- Parse a JSON number, returning its source text and the rest of the input. -/
def parseNumber (s : List Char) : Option (List Char × List Char) :=
  let (neg, s1) : List Char × List Char :=
    match s with
    | '-' :: rest => (['-'], rest)
    | _ => ([], s)
  match s1 with
  | c :: cs =>
    if c = '0' then parseNumTail (neg ++ ['0']) cs
    else if c.isDigit then
      let (ds, rest) := cs.span Char.isDigit
      parseNumTail (neg ++ c :: ds) rest
    else none
  | [] => none

/-- JavaScript object-key insertion: a repeated key keeps its first position
but takes the last value. -/
def insertEntry (es : List (String × Json)) (k : String) (v : Json) :
    List (String × Json) :=
  match es with
  | [] => [(k, v)]
  | (k0, v0) :: rest => if k0 = k then (k0, v) :: rest else (k0, v0) :: insertEntry rest k v

/-- Object-member loop: expects a key string at the head of the (whitespace
skipped) input; `pv` parses one value. -/
def membersLoop (pv : List Char → Option (Json × List Char)) :
    Nat → List (String × Json) → List Char → Option (List (String × Json) × List Char)
  | 0, _, _ => none
  | fuel + 1, acc, s =>
    match s with
    | c :: cs =>
      if c = '"' then
        match parseStr (cs.length + 1) cs with
        | some (key, r1) =>
          match skipWs r1 with
          | ':' :: r3 =>
            match pv (skipWs r3) with
            | some (v, r4) =>
              let acc2 := insertEntry acc (String.mk key) v
              match skipWs r4 with
              | ',' :: r6 => membersLoop pv fuel acc2 (skipWs r6)
              | c2 :: r6 => if c2 = rbrace then some (acc2, r6) else none
              | [] => none
            | none => none
          | _ => none
        | none => none
      else none
    | [] => none

/-- Array-element loop. -/
def elemsLoop (pv : List Char → Option (Json × List Char)) :
    Nat → List Json → List Char → Option (List Json × List Char)
  | 0, _, _ => none
  | fuel + 1, acc, s =>
    match pv s with
    | some (v, r1) =>
      match skipWs r1 with
      | ',' :: r2 => elemsLoop pv fuel (acc ++ [v]) (skipWs r2)
      | c :: r2 => if c = ']' then some (acc ++ [v], r2) else none
      | [] => none
    | none => none

/-- Parse one JSON value. The fuel bounds nesting depth; every nesting level
consumes at least one character, so `length + 1` always suffices. -/
def parseV : Nat → List Char → Option (Json × List Char)
  | 0, _ => none
  | fuel + 1, s =>
    match s with
    | [] => none
    | c :: cs =>
      if c = '"' then
        match parseStr (cs.length + 1) cs with
        | some (str, r) => some (Json.str (String.mk str), r)
        | none => none
      else if c = lbrace then
        let s1 := skipWs cs
        match s1 with
        | c1 :: r1 =>
          if c1 = rbrace then some (Json.obj [], r1)
          else
            match membersLoop (parseV fuel) (s1.length + 1) [] s1 with
            | some (es, r) => some (Json.obj es, r)
            | none => none
        | [] => none
      else if c = '[' then
        let s1 := skipWs cs
        match s1 with
        | c1 :: r1 =>
          if c1 = ']' then some (Json.arr [], r1)
          else
            match elemsLoop (parseV fuel) (s1.length + 1) [] s1 with
            | some (es, r) => some (Json.arr es, r)
            | none => none
        | [] => none
      else if c = 't' then
        match cs with
        | 'r' :: 'u' :: 'e' :: r => some (Json.bool true, r)
        | _ => none
      else if c = 'f' then
        match cs with
        | 'a' :: 'l' :: 's' :: 'e' :: r => some (Json.bool false, r)
        | _ => none
      else if c = 'n' then
        match cs with
        | 'u' :: 'l' :: 'l' :: r => some (Json.null, r)
        | _ => none
      else
        match parseNumber s with
        | some (raw, r) => some (Json.num raw, r)
        | none => none

/-- `JSON.parse`: a whole input must be one JSON value up to whitespace. -/
def jsonParse (s : String) : Option Json :=
  match parseV (s.data.length + 1) (skipWs s.data) with
  | some (v, rest) => if (skipWs rest).isEmpty then some v else none
  | none => none

/-- Lower-case hexadecimal digit. -/
def hexChar (n : Nat) : Char :=
  if n < 10 then Char.ofNat (48 + n) else Char.ofNat (87 + n)

/-- `JSON.stringify` escaping of one string character. -/
def escapeChar (c : Char) : List Char :=
  if c = '"' then ['\\', '"']
  else if c = '\\' then ['\\', '\\']
  else if c = '\n' then ['\\', 'n']
  else if c = '\r' then ['\\', 'r']
  else if c = '\t' then ['\\', 't']
  else if c = Char.ofNat 8 then ['\\', 'b']
  else if c = Char.ofNat 12 then ['\\', 'f']
  else if c.toNat < 32 then
    '\\' :: 'u' :: '0' :: '0' :: hexChar (c.toNat / 16) :: [hexChar (c.toNat % 16)]
  else [c]

/-- `JSON.stringify` of a string value. -/
def quoteStr (s : String) : List Char :=
  '"' :: (s.data.map escapeChar).flatten ++ ['"']

/-- Comma-join rendered pieces. -/
def commaJoin : List (List Char) → List Char
  | [] => []
  | [x] => x
  | x :: xs => x ++ ',' :: commaJoin xs

/-- `JSON.stringify` of a value. The fuel bounds depth and exceeds the depth
of every parsed value in use; numbers re-emit their source text (see the
section comment). -/
def stringifyV : Nat → Json → List Char
  | 0, _ => []
  | fuel + 1, j =>
    match j with
    | Json.null => ['n', 'u', 'l', 'l']
    | Json.bool true => ['t', 'r', 'u', 'e']
    | Json.bool false => ['f', 'a', 'l', 's', 'e']
    | Json.num raw => raw
    | Json.str s => quoteStr s
    | Json.arr es => '[' :: commaJoin (es.map (stringifyV fuel)) ++ [']']
    | Json.obj es =>
      lbrace :: commaJoin (es.map (fun kv => quoteStr kv.1 ++ ':' :: stringifyV fuel kv.2))
        ++ [rbrace]

/-- Join with `", "` (the `.join(', ')` of `prettyConsoleFormat`). -/
def commaSpaceJoin : List (List Char) → List Char
  | [] => []
  | [x] => x
  | x :: xs => x ++ ',' :: ' ' :: commaSpaceJoin xs

/-- One `Object.entries` pair rendered by `prettyConsoleFormat`:
`JSON.stringify(key) + " such " + JSON.stringify(value)`. -/
def wowEntry (fuel : Nat) (kv : String × Json) : List Char :=
  quoteStr kv.1 ++ " such ".data ++ stringifyV fuel kv.2

/-- The message rewrite performed by `prettyConsoleFormat`: a message starting
with a brace is parsed; on success the object's entries are rendered inside
`< wow ... >`; otherwise (parse failure, or a non-object result, on which
`Object.entries` would throw inside the `try`) the message is unchanged. -/
def prettyTransform (msg : String) : String :=
  match msg.data with
  | [] => msg
  | c :: _ =>
    if c = lbrace then
      match jsonParse msg with
      | some (Json.obj es) =>
        String.mk ("< wow ".data ++ commaSpaceJoin (es.map (wowEntry (msg.data.length + 1)))
          ++ " >".data)
      | _ => msg
    else msg

/-! ## Path algebra: `splitSegs` and `joinSegs` -/

/-- A path segment that the normalization machine neither drops nor pops. -/
def plainSeg (s : List Char) : Prop :=
  s ≠ [] ∧ '/' ∉ s ∧ s ≠ ['.'] ∧ s ≠ dotdot

instance : DecidablePred plainSeg := fun s => by
  unfold plainSeg; infer_instance

theorem splitSegs_ne_nil (l : List Char) : splitSegs l ≠ [] := by
  induction l with
  | nil => simp [splitSegs]
  | cons c cs ih =>
    simp only [splitSegs]
    split
    · simp
    · cases h : splitSegs cs with
      | nil => simp
      | cons s ss => simp

theorem splitSegs_slash_cons (cs : List Char) :
    splitSegs ('/' :: cs) = [] :: splitSegs cs := by
  simp [splitSegs]

theorem splitSegs_cons_ne (c : Char) (cs : List Char) (hc : c ≠ '/') (s : List Char)
    (ss : List (List Char)) (h : splitSegs cs = s :: ss) :
    splitSegs (c :: cs) = (c :: s) :: ss := by
  simp only [splitSegs, if_neg hc, h]

theorem splitSegs_append (a b : List Char) :
    splitSegs (a ++ '/' :: b) = splitSegs a ++ splitSegs b := by
  induction a with
  | nil => simp [splitSegs]
  | cons c cs ih =>
    by_cases hc : c = '/'
    · subst hc
      rw [List.cons_append, splitSegs_slash_cons, splitSegs_slash_cons, ih, List.cons_append]
    · cases h : splitSegs cs with
      | nil => exact absurd h (splitSegs_ne_nil cs)
      | cons s ss =>
        have h2 : splitSegs (cs ++ '/' :: b) = s :: (ss ++ splitSegs b) := by
          rw [ih, h]; simp
        rw [List.cons_append, splitSegs_cons_ne c _ hc _ _ h2,
          splitSegs_cons_ne c _ hc _ _ h, List.cons_append]

theorem splitSegs_no_slash (l : List Char) (h : '/' ∉ l) : splitSegs l = [l] := by
  induction l with
  | nil => simp [splitSegs]
  | cons c cs ih =>
    have hc : c ≠ '/' := fun hc => h (hc ▸ List.mem_cons_self c cs)
    have hcs : '/' ∉ cs := fun hm => h (List.mem_cons_of_mem c hm)
    simp only [splitSegs, if_neg hc, ih hcs]

theorem noslash_of_mem_splitSegs {l : List Char} {s : List Char}
    (hs : s ∈ splitSegs l) : '/' ∉ s := by
  induction l generalizing s with
  | nil =>
    simp only [splitSegs, List.mem_singleton] at hs
    subst hs; simp
  | cons c cs ih =>
    simp only [splitSegs] at hs
    by_cases hc : c = '/'
    · rw [if_pos hc] at hs
      rcases List.mem_cons.1 hs with h | h
      · subst h; simp
      · exact ih h
    · rw [if_neg hc] at hs
      cases h : splitSegs cs with
      | nil => exact absurd h (splitSegs_ne_nil cs)
      | cons t ts =>
        rw [h] at hs
        rcases List.mem_cons.1 hs with h1 | h1
        · subst h1
          intro hm
          rcases List.mem_cons.1 hm with h2 | h2
          · exact hc h2.symm
          · exact ih (h ▸ List.mem_cons_self t ts) h2
        · exact ih (h ▸ List.mem_cons_of_mem t h1)

theorem joinSegs_cons (s : List Char) (ss : List (List Char)) (h : ss ≠ []) :
    joinSegs (s :: ss) = s ++ '/' :: joinSegs ss := by
  cases ss with
  | nil => exact absurd rfl h
  | cons t ts => rfl

theorem splitSegs_joinSegs (segs : List (List Char)) (hne : segs ≠ [])
    (h : ∀ s ∈ segs, '/' ∉ s) : splitSegs (joinSegs segs) = segs := by
  induction segs with
  | nil => exact absurd rfl hne
  | cons s ss ih =>
    cases ss with
    | nil =>
      simp only [joinSegs]
      exact splitSegs_no_slash s (h s (List.mem_cons_self s []))
    | cons t ts =>
      rw [joinSegs_cons s (t :: ts) (by simp), splitSegs_append,
        splitSegs_no_slash s (h s (List.mem_cons_self s (t :: ts))),
        ih (by simp) (fun u hu => h u (List.mem_cons_of_mem s hu))]
      simp

theorem joinSegs_append_singleton (segs : List (List Char)) (N : List Char)
    (h : segs ≠ []) : joinSegs (segs ++ [N]) = joinSegs segs ++ '/' :: N := by
  induction segs with
  | nil => exact absurd rfl h
  | cons s ss ih =>
    cases ss with
    | nil => simp [joinSegs]
    | cons t ts =>
      rw [List.cons_append, joinSegs_cons s ((t :: ts) ++ [N]) (by simp),
        joinSegs_cons s (t :: ts) (by simp), ih (by simp)]
      simp

theorem joinSegs_concat_append (init : List (List Char)) (x suffix : List Char) :
    joinSegs (init ++ [x]) ++ suffix = joinSegs (init ++ [x ++ suffix]) := by
  induction init with
  | nil => simp [joinSegs]
  | cons s ss ih =>
    rw [List.cons_append, joinSegs_cons s (ss ++ [x]) (by simp),
      List.cons_append, joinSegs_cons s (ss ++ [x ++ suffix]) (by simp), ← ih]
    simp

theorem joinSegs_ne_nil (segs : List (List Char)) (hne : segs ≠ [])
    (h : ∀ s ∈ segs, s ≠ []) : joinSegs segs ≠ [] := by
  cases segs with
  | nil => exact absurd rfl hne
  | cons s ss =>
    cases ss with
    | nil => exact h s (List.mem_cons_self s [])
    | cons t ts =>
      rw [joinSegs_cons s (t :: ts) (by simp)]
      cases hs : s with
      | nil => exact absurd hs (h s (List.mem_cons_self s (t :: ts)))
      | cons c cs => simp

theorem head_joinSegs (s : List Char) (ss : List (List Char)) (c : Char) (cs : List Char)
    (hs : s = c :: cs) : ∃ tail, joinSegs (s :: ss) = c :: tail := by
  cases ss with
  | nil => exact ⟨cs, by simp [joinSegs, hs]⟩
  | cons t ts =>
    rw [joinSegs_cons s (t :: ts) (by simp), hs]
    exact ⟨cs ++ '/' :: joinSegs (t :: ts), by simp⟩

theorem getLast?_joinSegs (init : List (List Char)) (x : List Char) (hx : x ≠ []) :
    (joinSegs (init ++ [x])).getLast? = x.getLast? := by
  cases init with
  | nil => simp [joinSegs]
  | cons s ss =>
    rw [joinSegs_append_singleton (s :: ss) x (by simp)]
    rw [List.getLast?_append_of_ne_nil _ (by simp : '/' :: x ≠ [])]
    cases x with
    | nil => exact absurd rfl hx
    | cons c cs =>
      show (['/'] ++ (c :: cs)).getLast? = (c :: cs).getLast?
      exact List.getLast?_append_of_ne_nil ['/'] (by simp)

/-! ## Path algebra: the `normStep` machine -/

/-- A segment that can appear in normalized output: nonempty, separator-free
and not `.` (it may still be `..` in relative paths). -/
def goodSeg (s : List Char) : Prop := s ≠ [] ∧ '/' ∉ s ∧ s ≠ ['.']

instance : DecidablePred goodSeg := fun s => by
  unfold goodSeg; infer_instance

theorem plainSeg_iff (s : List Char) : plainSeg s ↔ goodSeg s ∧ s ≠ dotdot := by
  unfold plainSeg goodSeg
  tauto

theorem normStep_skip (allow : Bool) (acc : List (List Char)) (seg : List Char)
    (h : seg = [] ∨ seg = ['.']) : normStep allow acc seg = acc := by
  unfold normStep
  rw [if_pos h]

theorem normStep_push (allow : Bool) (acc : List (List Char)) (seg : List Char)
    (h1 : ¬(seg = [] ∨ seg = ['.'])) (h2 : seg ≠ dotdot) :
    normStep allow acc seg = seg :: acc := by
  unfold normStep
  rw [if_neg h1, if_neg h2]

theorem normStep_plain (allow : Bool) (acc : List (List Char)) (seg : List Char)
    (h : plainSeg seg) : normStep allow acc seg = seg :: acc :=
  normStep_push allow acc seg (by obtain ⟨h1, _, h3, _⟩ := h; tauto) h.2.2.2

theorem foldl_normStep_plain (allow : Bool) (l : List (List Char))
    (acc : List (List Char)) (h : ∀ s ∈ l, plainSeg s) :
    l.foldl (normStep allow) acc = l.reverse ++ acc := by
  induction l generalizing acc with
  | nil => simp
  | cons t ts ih =>
    rw [List.foldl_cons, normStep_plain allow acc t (h t (List.mem_cons_self t ts)),
      ih (t :: acc) (fun s hs => h s (List.mem_cons_of_mem t hs))]
    simp

theorem normStep_dotdot_nil (allow : Bool) :
    normStep allow [] dotdot = if allow then [dotdot] else [] := by
  unfold normStep
  rw [if_neg (by simp [dotdot]), if_pos rfl]

theorem normStep_dotdot_cons (allow : Bool) (top : List Char) (tl : List (List Char)) :
    normStep allow (top :: tl) dotdot =
      if top = dotdot then (if allow then dotdot :: top :: tl else top :: tl) else tl := by
  unfold normStep
  rw [if_neg (by simp [dotdot]), if_pos rfl]

/-- Case analysis on one machine step: the result is contained in the union of
the accumulator, `[dotdot]` and a pushable input segment. -/
theorem mem_normStep (allow : Bool) (acc : List (List Char)) (t s : List Char)
    (hs : s ∈ normStep allow acc t) :
    s ∈ acc ∨ s = dotdot ∨ (s = t ∧ t ≠ [] ∧ t ≠ ['.'] ∧ t ≠ dotdot) := by
  by_cases h1 : t = [] ∨ t = ['.']
  · rw [normStep_skip allow acc t h1] at hs
    exact Or.inl hs
  · by_cases h2 : t = dotdot
    · subst h2
      cases acc with
      | nil =>
        rw [normStep_dotdot_nil] at hs
        cases allow with
        | true => simp at hs; exact Or.inr (Or.inl hs)
        | false => simp at hs
      | cons top tl =>
        rw [normStep_dotdot_cons] at hs
        by_cases htop : top = dotdot
        · rw [if_pos htop] at hs
          cases allow with
          | true =>
            simp only [if_pos rfl] at hs
            rcases List.mem_cons.1 hs with h | h
            · exact Or.inr (Or.inl h)
            · exact Or.inl h
          | false =>
            simp only [Bool.false_eq_true, if_false] at hs
            exact Or.inl hs
        · rw [if_neg htop] at hs
          exact Or.inl (List.mem_cons_of_mem top hs)
    · rw [normStep_push allow acc t h1 h2] at hs
      rcases List.mem_cons.1 hs with h | h
      · exact Or.inr (Or.inr ⟨h, by tauto, by tauto, h2⟩)
      · exact Or.inl h

theorem mem_foldl_normStep (allow : Bool) (l : List (List Char))
    (acc : List (List Char)) (s : List Char) (hs : s ∈ l.foldl (normStep allow) acc) :
    s ∈ acc ∨ s = dotdot ∨ (s ∈ l ∧ s ≠ [] ∧ s ≠ ['.'] ∧ s ≠ dotdot) := by
  induction l generalizing acc with
  | nil => exact Or.inl hs
  | cons t ts ih =>
    rw [List.foldl_cons] at hs
    rcases ih (normStep allow acc t) hs with hmem | hd | ⟨hmem, hrest⟩
    · rcases mem_normStep allow acc t s hmem with h | h | ⟨heq, hrest⟩
      · exact Or.inl h
      · exact Or.inr (Or.inl h)
      · exact Or.inr (Or.inr ⟨heq ▸ List.mem_cons_self t ts, heq ▸ hrest.1,
          heq ▸ hrest.2.1, heq ▸ hrest.2.2⟩)
    · exact Or.inr (Or.inl hd)
    · exact Or.inr (Or.inr ⟨List.mem_cons_of_mem t hmem, hrest⟩)

theorem foldl_false_no_dotdot (l : List (List Char)) (acc : List (List Char))
    (hacc : ∀ s ∈ acc, s ≠ dotdot) :
    ∀ s ∈ l.foldl (normStep false) acc, s ≠ dotdot := by
  induction l generalizing acc with
  | nil => exact hacc
  | cons t ts ih =>
    rw [List.foldl_cons]
    refine ih (normStep false acc t) ?_
    intro s hs
    by_cases h1 : t = [] ∨ t = ['.']
    · rw [normStep_skip false acc t h1] at hs
      exact hacc s hs
    · by_cases h2 : t = dotdot

      · subst h2
        cases hacc2 : acc with
        | nil =>
          rw [hacc2, normStep_dotdot_nil] at hs
          simp at hs
        | cons top tl =>
          rw [hacc2, normStep_dotdot_cons] at hs
          by_cases htop : top = dotdot
          · exact absurd htop (hacc top (hacc2 ▸ List.mem_cons_self top tl))
          · rw [if_neg htop] at hs
            exact hacc s (hacc2 ▸ List.mem_cons_of_mem top hs)
      · rw [normStep_push false acc t h1 h2] at hs
        rcases List.mem_cons.1 hs with h | h
        · exact h ▸ h2
        · exact hacc s h

theorem foldl_replicate_dotdot (m k : Nat) :
    (List.replicate m dotdot).foldl (normStep true) (List.replicate k dotdot) =
      List.replicate (k + m) dotdot := by
  induction m generalizing k with
  | zero => simp
  | succ n ih =>
    rw [List.replicate_succ, List.foldl_cons]
    have hstep : normStep true (List.replicate k dotdot) dotdot =
        List.replicate (k + 1) dotdot := by
      cases k with
      | zero => rw [List.replicate_zero, normStep_dotdot_nil]; simp
      | succ j =>
        rw [List.replicate_succ, normStep_dotdot_cons, if_pos rfl, if_pos rfl,
          ← List.replicate_succ, ← List.replicate_succ]
    rw [hstep, ih (k + 1)]
    congr 1
    omega

theorem foldl_true_shape (l : List (List Char)) (acc : List (List Char))
    (h : ∃ plains m, acc = plains ++ List.replicate m dotdot ∧ ∀ s ∈ plains, s ≠ dotdot) :
    ∃ plains m, l.foldl (normStep true) acc = plains ++ List.replicate m dotdot ∧
      ∀ s ∈ plains, s ≠ dotdot := by
  induction l generalizing acc with
  | nil => exact h
  | cons t ts ih =>
    rw [List.foldl_cons]
    refine ih (normStep true acc t) ?_
    obtain ⟨plains, m, hacc, hplains⟩ := h
    by_cases h1 : t = [] ∨ t = ['.']
    · exact ⟨plains, m, by rw [normStep_skip true acc t h1, hacc], hplains⟩
    · by_cases h2 : t = dotdot
      · subst h2
        cases hp : plains with
        | nil =>
          cases hm : m with
          | zero =>
            refine ⟨[], 1, ?_, by simp⟩
            rw [hacc, hp, hm]
            rw [List.nil_append, List.replicate_zero, normStep_dotdot_nil, if_pos rfl]
            simp
          | succ j =>
            refine ⟨[], j + 2, ?_, by simp⟩
            rw [hacc, hp, hm, List.nil_append, List.replicate_succ,
              normStep_dotdot_cons, if_pos rfl, if_pos rfl, ← List.replicate_succ,
              ← List.replicate_succ, List.nil_append]
        | cons p ps =>
          refine ⟨ps, m, ?_, fun s hs => hplains s (hp ▸ List.mem_cons_of_mem p hs)⟩
          rw [hacc, hp, List.cons_append, normStep_dotdot_cons,
            if_neg (hplains p (hp ▸ List.mem_cons_self p ps))]
      · refine ⟨t :: plains, m, ?_, ?_⟩
        · rw [normStep_push true acc t h1 h2, hacc, List.cons_append]
        · intro s hs
          rcases List.mem_cons.1 hs with hq | hq
          · exact hq ▸ h2
          · exact hplains s hq

/-! ## Path algebra: `normSegs` facts -/

theorem normSegs_good (allow : Bool) (segs : List (List Char))
    (hns : ∀ s ∈ segs, '/' ∉ s) : ∀ s ∈ normSegs allow segs, goodSeg s := by
  intro s hs
  rw [normSegs, List.mem_reverse] at hs
  rcases mem_foldl_normStep allow segs [] s hs with h | h | ⟨hmem, h1, h2, _⟩
  · simp at h
  · subst h
    exact ⟨by simp [dotdot], by decide, by decide⟩
  · exact ⟨h1, hns s hmem, h2⟩

theorem normSegs_false_plain (segs : List (List Char))
    (hns : ∀ s ∈ segs, '/' ∉ s) : ∀ s ∈ normSegs false segs, plainSeg s := by
  intro s hs
  have hg := normSegs_good false segs hns s hs
  have hd : s ≠ dotdot := by
    rw [normSegs, List.mem_reverse] at hs
    exact foldl_false_no_dotdot segs [] (by simp) s hs
  exact (plainSeg_iff s).2 ⟨hg, hd⟩

theorem normSegs_fix_of_plain (allow : Bool) (segs : List (List Char))
    (h : ∀ s ∈ segs, plainSeg s) : normSegs allow segs = segs := by
  rw [normSegs, foldl_normStep_plain allow segs [] h]
  simp

theorem normSegs_true_shape (segs : List (List Char))
    (hns : ∀ s ∈ segs, '/' ∉ s) :
    ∃ m qs, normSegs true segs = List.replicate m dotdot ++ qs ∧ ∀ s ∈ qs, plainSeg s := by
  obtain ⟨plains, m, hstack, hpl⟩ := foldl_true_shape segs [] ⟨[], 0, by simp, by simp⟩
  refine ⟨m, plains.reverse, ?_, ?_⟩
  · rw [normSegs, hstack, List.reverse_append, List.reverse_replicate]
  · intro s hs
    rw [List.mem_reverse] at hs
    have hmem : s ∈ segs.foldl (normStep true) [] := by
      rw [hstack]
      exact List.mem_append_left _ hs
    rcases mem_foldl_normStep true segs [] s hmem with h | h | ⟨hin, h1, h2, h3⟩
    · simp at h
    · exact absurd h (hpl s hs)
    · exact ⟨h1, hns s hin, h2, h3⟩

theorem normSegs_fix_true_form (m : Nat) (qs : List (List Char))
    (h : ∀ s ∈ qs, plainSeg s) :
    normSegs true (List.replicate m dotdot ++ qs) = List.replicate m dotdot ++ qs := by
  rw [normSegs, List.foldl_append]
  have h0 : (List.replicate m dotdot).foldl (normStep true) [] = List.replicate m dotdot := by
    have := foldl_replicate_dotdot m 0
    simpa using this
  rw [h0, foldl_normStep_plain true qs (List.replicate m dotdot) h,
    List.reverse_append, List.reverse_reverse, List.reverse_replicate]

theorem normSegs_idem (allow : Bool) (segs : List (List Char))
    (hns : ∀ s ∈ segs, '/' ∉ s) :
    normSegs allow (normSegs allow segs) = normSegs allow segs := by
  cases allow with
  | false => exact normSegs_fix_of_plain false _ (normSegs_false_plain segs hns)
  | true =>
    obtain ⟨m, qs, hO, hq⟩ := normSegs_true_shape segs hns
    rw [hO, normSegs_fix_true_form m qs hq]

theorem normSegs_cons_empty (allow : Bool) (segs : List (List Char)) :
    normSegs allow ([] :: segs) = normSegs allow segs := by
  rw [normSegs, List.foldl_cons, normStep_skip allow [] [] (Or.inl rfl), normSegs]

theorem normSegs_cons_dot (allow : Bool) (segs : List (List Char)) :
    normSegs allow (['.'] :: segs) = normSegs allow segs := by
  rw [normSegs, List.foldl_cons, normStep_skip allow [] ['.'] (Or.inr rfl), normSegs]

theorem normSegs_append_empty (allow : Bool) (segs : List (List Char)) :
    normSegs allow (segs ++ [[]]) = normSegs allow segs := by
  rw [normSegs, List.foldl_append, List.foldl_cons,
    normStep_skip allow _ [] (Or.inl rfl), List.foldl_nil, normSegs]

theorem normSegs_false_restart (xs ys : List (List Char))
    (hns : ∀ s ∈ xs, '/' ∉ s) :
    normSegs false (normSegs false xs ++ ys) = normSegs false (xs ++ ys) := by
  have h1 : (normSegs false xs).foldl (normStep false) [] = xs.foldl (normStep false) [] := by
    rw [foldl_normStep_plain false (normSegs false xs) [] (normSegs_false_plain xs hns),
      List.append_nil, normSegs, List.reverse_reverse]
  show ((normSegs false xs ++ ys).foldl (normStep false) []).reverse =
    ((xs ++ ys).foldl (normStep false) []).reverse
  rw [List.foldl_append, List.foldl_append, h1]

/-! ## Path algebra: reassembly of normalized paths -/

theorem isAbsoluteL_append_front (body tail : List Char) :
    isAbsoluteL (('/' :: body) ++ tail) = true := rfl

/-- The master reassembly fact: a path built from nonempty separator-free
non-`.` segments, with an optional absolute prefix and an optional trailing
separator, is a fixed point of `normalizeL` as soon as its segment list is a
fixed point of the machine. -/
theorem normalizeL_reassemble (isAbs trailing : Bool) (segs : List (List Char))
    (hne : segs ≠ []) (hg : ∀ s ∈ segs, goodSeg s)
    (hfix : normSegs (!isAbs) segs = segs) :
    normalizeL ((if isAbs then '/' :: joinSegs segs else joinSegs segs) ++
      (if trailing then ['/'] else [])) =
    (if isAbs then '/' :: joinSegs segs else joinSegs segs) ++
      (if trailing then ['/'] else []) := by
  have hbody : joinSegs segs ≠ [] :=
    joinSegs_ne_nil segs hne (fun s hs => (hg s hs).1)
  obtain ⟨s0, ss0, hsegs⟩ : ∃ s0 ss0, segs = s0 :: ss0 := by
    cases segs with
    | nil => exact absurd rfl hne
    | cons a b => exact ⟨a, b, rfl⟩
  obtain ⟨c0, cs0, hs0⟩ : ∃ c0 cs0, s0 = c0 :: cs0 := by
    cases hs : s0 with
    | nil => exact absurd (hsegs ▸ hs ▸ List.mem_cons_self [] ss0) (fun hm => (hg [] hm).1 rfl)
    | cons a b => exact ⟨a, b, rfl⟩
  have hc0 : c0 ≠ '/' := by
    intro hc
    exact (hg s0 (hsegs ▸ List.mem_cons_self s0 ss0)).2.1 (hs0 ▸ hc ▸ List.mem_cons_self c0 cs0)
  obtain ⟨init, lseg, hconcat⟩ : ∃ init lseg, segs = init ++ [lseg] := by
    rcases List.eq_nil_or_concat segs with h | ⟨init, lseg, h⟩
    · exact absurd h hne
    · exact ⟨init, lseg, by rw [h, List.concat_eq_append]⟩
  have hlseg : goodSeg lseg := hg lseg (hconcat ▸ List.mem_append_right init (List.mem_cons_self lseg []))
  obtain ⟨lc, hlc, hlcne⟩ : ∃ lc, lseg.getLast? = some lc ∧ lc ≠ '/' := by
    cases hl : lseg with
    | nil => exact absurd hl hlseg.1
    | cons a b =>
      refine ⟨(a :: b).getLast (by simp), by rw [List.getLast?_eq_getLast], ?_⟩
      intro hcontra
      exact hlseg.2.1 (hl ▸ hcontra ▸ List.getLast_mem (by simp))
  -- the assembled path and its head/last analysis
  set q : List Char := (if isAbs then '/' :: joinSegs segs else joinSegs segs) ++
    (if trailing then ['/'] else []) with hq
  have hqne : q ≠ [] := by
    rw [hq]
    cases isAbs <;> cases trailing <;> simp [hbody]
  have habs : isAbsoluteL q = isAbs := by
    rw [hq]
    cases isAbs with
    | true => rfl
    | false =>
      obtain ⟨tail, htail⟩ := head_joinSegs s0 ss0 c0 cs0 hs0
      rw [if_neg (by simp)]
      rw [hsegs, htail]
      show isAbsoluteL (c0 :: (tail ++ _)) = false
      simp [isAbsoluteL, hc0]
  have hbodyLast : (joinSegs segs).getLast? = some lc := by
    rw [hconcat, getLast?_joinSegs init lseg hlseg.1, ← hlc]
  have htrail : hasTrailingL q = trailing := by
    cases trailing with
    | true =>
      have hqq : q = (if isAbs then '/' :: joinSegs segs else joinSegs segs) ++ ['/'] := by
        rw [hq]; simp
      rw [hqq]
      unfold hasTrailingL
      rw [List.getLast?_append_of_ne_nil _ (by simp : ['/'] ≠ [])]
      rfl
    | false =>
      have hqq : q = (if isAbs then '/' :: joinSegs segs else joinSegs segs) := by
        rw [hq]; simp
      rw [hqq]
      cases isAbs with
      | true =>
        have h2 : (if (true : Bool) = true then '/' :: joinSegs segs else joinSegs segs) =
            '/' :: joinSegs segs := by simp
        rw [h2]
        unfold hasTrailingL
        rw [show ('/' :: joinSegs segs) = ['/'] ++ joinSegs segs from rfl,
          List.getLast?_append_of_ne_nil _ hbody, hbodyLast]
        simp [hlcne]
      | false =>
        have h2 : (if (false : Bool) = true then '/' :: joinSegs segs else joinSegs segs) =
            joinSegs segs := by simp
        rw [h2]
        unfold hasTrailingL
        rw [hbodyLast]
        simp [hlcne]
  have hsplit : splitSegs q =
      (if isAbs then [[]] else []) ++ segs ++ (if trailing then [[]] else []) := by
    rw [hq]
    have hsb : splitSegs (joinSegs segs) = segs :=
      splitSegs_joinSegs segs hne (fun s hs => (hg s hs).2.1)
    cases isAbs with
    | true =>
      cases trailing with
      | true =>
        show splitSegs ('/' :: (joinSegs segs ++ '/' :: [])) = [[]] ++ segs ++ [[]]
        rw [splitSegs_slash_cons, splitSegs_append, hsb]
        rfl
      | false =>
        show splitSegs ('/' :: joinSegs segs ++ []) = [[]] ++ segs ++ []
        rw [List.append_nil, List.append_nil, splitSegs_slash_cons, hsb]
        rfl
    | false =>
      cases trailing with
      | true =>
        show splitSegs (joinSegs segs ++ '/' :: []) = [] ++ segs ++ [[]]
        rw [splitSegs_append, hsb]
        rfl
      | false =>
        show splitSegs (joinSegs segs ++ []) = [] ++ segs ++ []
        rw [List.append_nil, List.append_nil, List.nil_append, hsb]
  have hnorm : normSegs (!isAbs) (splitSegs q) = segs := by
    rw [hsplit]
    cases isAbs with
    | true =>
      cases trailing with
      | true =>
        show normSegs false ([] :: (segs ++ [[]])) = segs
        rw [normSegs_cons_empty, normSegs_append_empty]
        exact hfix
      | false =>
        show normSegs false ([] :: (segs ++ [])) = segs
        rw [List.append_nil, normSegs_cons_empty]
        exact hfix
    | false =>
      cases trailing with
      | true =>
        show normSegs true ([] ++ segs ++ [[]]) = segs
        rw [List.nil_append, normSegs_append_empty]
        exact hfix
      | false =>
        show normSegs true ([] ++ segs ++ []) = segs
        rw [List.nil_append, List.append_nil]
        exact hfix
  -- assemble
  unfold normalizeL
  rw [if_neg hqne, habs, htrail]
  simp only [hnorm]
  rw [if_neg hbody, hq]

/-! ## Path algebra: idempotence and resolution fixed points -/

theorem normalizeL_eq_of_ne (p : List Char) (hp : p ≠ []) :
    normalizeL p =
      (if joinSegs (normSegs (!isAbsoluteL p) (splitSegs p)) = [] then
        (if isAbsoluteL p then ['/'] else if hasTrailingL p then ['.', '/'] else ['.'])
      else
        (if isAbsoluteL p then '/' :: joinSegs (normSegs (!isAbsoluteL p) (splitSegs p))
          else joinSegs (normSegs (!isAbsoluteL p) (splitSegs p))) ++
          (if hasTrailingL p then ['/'] else [])) := by
  unfold normalizeL
  rw [if_neg hp]

theorem normalizeL_idem (p : List Char) : normalizeL (normalizeL p) = normalizeL p := by
  by_cases hp : p = []
  · subst hp
    decide
  · rw [normalizeL_eq_of_ne p hp]
    have hns : ∀ s ∈ splitSegs p, '/' ∉ s := fun s hs => noslash_of_mem_splitSegs hs
    by_cases hb : joinSegs (normSegs (!isAbsoluteL p) (splitSegs p)) = []
    · rw [if_pos hb]
      cases hA : isAbsoluteL p
      · cases hT : hasTrailingL p
        · show normalizeL ['.'] = ['.']
          decide
        · show normalizeL ['.', '/'] = ['.', '/']
          decide
      · show normalizeL ['/'] = ['/']
        decide
    · rw [if_neg hb]
      refine normalizeL_reassemble (isAbsoluteL p) (hasTrailingL p)
        (normSegs (!isAbsoluteL p) (splitSegs p)) ?_ ?_ ?_
      · intro hcontra
        exact hb (hcontra ▸ rfl)
      · exact normSegs_good (!isAbsoluteL p) (splitSegs p) hns
      · exact normSegs_idem (!isAbsoluteL p) (splitSegs p) hns

theorem finishResolve_abs_fix (segs : List (List Char))
    (hns : ∀ s ∈ segs, '/' ∉ s) :
    normalizeL (finishResolve segs true) = finishResolve segs true ∧
    isAbsoluteL (finishResolve segs true) = true := by
  have hout : finishResolve segs true =
      (if joinSegs (normSegs false segs) = [] then ['/']
        else '/' :: joinSegs (normSegs false segs)) := rfl
  rw [hout]
  by_cases hb : joinSegs (normSegs false segs) = []
  · rw [if_pos hb]
    exact ⟨by decide, by decide⟩
  · rw [if_neg hb]
    have hne : normSegs false segs ≠ [] := fun hcontra => hb (hcontra ▸ rfl)
    have hg : ∀ s ∈ normSegs false segs, goodSeg s := normSegs_good false segs hns
    have hfix : normSegs false (normSegs false segs) = normSegs false segs :=
      normSegs_idem false segs hns
    refine ⟨?_, rfl⟩
    have := normalizeL_reassemble true false (normSegs false segs) hne hg
      (by simpa using hfix)
    simpa using this

/-- Unfolded form of `createSafePath`. -/
theorem createSafePath_def (cwd p : String) :
    createSafePath cwd p =
      if isAbsolute (posixNormalize p) then posixNormalize p
      else String.mk (resolveL cwd.data (posixNormalize p).data) := rfl

theorem posixNormalize_idem (x : String) :
    posixNormalize (posixNormalize x) = posixNormalize x :=
  congrArg String.mk (normalizeL_idem x.data)

theorem createSafePath_normalize (cwd x : String) :
    createSafePath cwd (posixNormalize x) = createSafePath cwd x := by
  rw [createSafePath_def, createSafePath_def, posixNormalize_idem]

/-- The output of `createSafePath` is normalized, absolute, and (when the
input was relative) used an absolute resolution. -/
theorem createSafePath_props (cwd x : String) (hcwd : isAbsolute cwd = true) :
    posixNormalize (createSafePath cwd x) = createSafePath cwd x ∧
    isAbsolute (createSafePath cwd x) = true := by
  rw [createSafePath_def]
  by_cases habs : isAbsolute (posixNormalize x) = true
  · rw [if_pos habs]
    exact ⟨posixNormalize_idem x, habs⟩
  · rw [if_neg habs]
    have hcwdne : cwd.data ≠ [] := by
      intro h
      rw [isAbsolute, h] at hcwd
      simp [isAbsoluteL] at hcwd
    have hres : resolveL cwd.data (posixNormalize x).data =
        finishResolve (splitSegs (cwd.data ++ '/' :: (posixNormalize x).data)) true := by
      unfold resolveL
      rw [if_neg (by simpa [isAbsolute] using habs), if_neg hcwdne,
        if_pos (by simpa [isAbsolute] using hcwd)]
    obtain ⟨h1, h2⟩ := finishResolve_abs_fix
      (splitSegs (cwd.data ++ '/' :: (posixNormalize x).data))
      (fun s hs => noslash_of_mem_splitSegs hs)
    constructor
    · show String.mk (normalizeL (resolveL cwd.data (posixNormalize x).data)) = _
      rw [hres, h1]
    · show isAbsoluteL (resolveL cwd.data (posixNormalize x).data) = true
      rw [hres, h2]

theorem createSafePath_idem (cwd x : String) (hcwd : isAbsolute cwd = true) :
    createSafePath cwd (createSafePath cwd x) = createSafePath cwd x := by
  obtain ⟨h1, h2⟩ := createSafePath_props cwd x hcwd
  rw [createSafePath_def cwd (createSafePath cwd x), h1, if_pos h2]

/-! ## Path algebra: appending plain segments and suffixes -/

theorem normalizeL_fix_plain_abs (segs : List (List Char)) (hne : segs ≠ [])
    (hplain : ∀ s ∈ segs, plainSeg s) :
    normalizeL ('/' :: joinSegs segs) = '/' :: joinSegs segs := by
  have h := normalizeL_reassemble true false segs hne
    (fun s hs => ((plainSeg_iff s).1 (hplain s hs)).1)
    (by simpa using normSegs_fix_of_plain false segs hplain)
  simpa using h

/-- A normalized absolute path other than the root decomposes into nonempty,
separator-free, non-dot segments. -/
theorem structure_of_normalizedAbs (p : List Char) (habs : isAbsoluteL p = true)
    (htr : hasTrailingL p = false) (hfix : normalizeL p = p) (hne : p ≠ ['/']) :
    ∃ segs, segs ≠ [] ∧ (∀ s ∈ segs, plainSeg s) ∧ p = '/' :: joinSegs segs := by
  have hp : p ≠ [] := by
    intro h
    rw [h] at habs
    simp [isAbsoluteL] at habs
  have hns : ∀ s ∈ splitSegs p, '/' ∉ s := fun s hs => noslash_of_mem_splitSegs hs
  rw [normalizeL_eq_of_ne p hp, habs, htr] at hfix
  simp only [Bool.not_true, if_pos rfl, Bool.false_eq_true, if_false, List.append_nil] at hfix
  by_cases hb : joinSegs (normSegs false (splitSegs p)) = []
  · rw [if_pos hb] at hfix
    exact absurd hfix.symm hne
  · rw [if_neg hb] at hfix
    refine ⟨normSegs false (splitSegs p), ?_, normSegs_false_plain (splitSegs p) hns, hfix.symm⟩
    intro hcontra
    exact hb (hcontra ▸ rfl)

theorem plainSeg_append_suffix (x suffix : List Char) (hx : plainSeg x)
    (hs : '/' ∉ suffix) : plainSeg (x ++ suffix) := by
  obtain ⟨h1, h2, h3, h4⟩ := hx
  refine ⟨by simp [h1], ?_, ?_, ?_⟩
  · intro hm
    rcases List.mem_append.1 hm with h | h
    · exact h2 h
    · exact hs h
  · cases x with
    | nil => exact absurd rfl h1
    | cons a t =>
      intro hcontra
      have ha : a = '.' := List.head_eq_of_cons_eq hcontra
      have ht : t ++ suffix = [] := List.tail_eq_of_cons_eq hcontra
      have htn : t = [] := by
        cases t with
        | nil => rfl
        | cons b u => simp at ht
      exact h3 (by rw [htn, ha])
  · cases x with
    | nil => exact absurd rfl h1
    | cons a t =>
      intro hcontra
      have ha : a = '.' := List.head_eq_of_cons_eq hcontra
      have ht : t ++ suffix = ['.'] := List.tail_eq_of_cons_eq hcontra
      cases t with
      | nil =>
        simp only [List.nil_append] at ht
        exact h3 (by rw [ha])
      | cons b u =>
        have hb : b = '.' := List.head_eq_of_cons_eq ht
        have hu : u ++ suffix = [] := List.tail_eq_of_cons_eq ht
        have hun : u = [] := by
          cases u with
          | nil => rfl
          | cons d e => simp at hu
        exact h4 (by rw [ha, hb, hun]; exact rfl)

theorem pathJoinL_two (a b : List Char) (ha : a ≠ []) (hb : b ≠ []) :
    pathJoinL [a, b] = normalizeL (a ++ '/' :: b) := by
  unfold pathJoinL
  have ha' : a.isEmpty = false := by simp [ha]
  have hb' : b.isEmpty = false := by simp [hb]
  simp only [List.filter, ha', hb', Bool.not_false]
  rw [if_neg (by simp)]
  rfl

/-- A structured absolute path (nonempty plain segments, no trailing
separator). -/
def PlainAbs (A : String) : Prop :=
  ∃ segs, segs ≠ [] ∧ (∀ s ∈ segs, plainSeg s) ∧ A.data = '/' :: joinSegs segs

theorem createSafePath_fixed (cwd A : String) (habs : isAbsolute A = true)
    (hfix : posixNormalize A = A) : createSafePath cwd A = A := by
  rw [createSafePath_def, hfix, if_pos habs]

theorem plainAbs_data_append (A : String) (x : List Char) :
    (String.mk (A.data ++ x)) = A ++ String.mk x := by
  cases A
  rfl

theorem normalizeL_fix_of_plainAbs {A : String} (h : PlainAbs A) :
    normalizeL A.data = A.data := by
  obtain ⟨segs, hne, hplain, hdata⟩ := h
  rw [hdata]
  exact normalizeL_fix_plain_abs segs hne hplain

theorem isAbsolute_of_plainAbs {A : String} (h : PlainAbs A) :
    isAbsolute A = true := by
  obtain ⟨segs, _, _, hdata⟩ := h
  rw [isAbsolute, hdata]
  rfl

theorem createSafePath_of_plainAbs (cwd : String) {A : String} (h : PlainAbs A) :
    createSafePath cwd A = A :=
  createSafePath_fixed cwd A (isAbsolute_of_plainAbs h)
    (congrArg String.mk (normalizeL_fix_of_plainAbs h))

/-- Joining a structured absolute path with one plain segment appends it
literally. -/
theorem joinSafePaths_plain (cwd A N : String) (hA : PlainAbs A)
    (hN : plainSeg N.data) :
    joinSafePaths cwd [A, N] = A ++ "/" ++ N ∧ PlainAbs (A ++ "/" ++ N) := by
  obtain ⟨segs, hne, hplain, hdata⟩ := hA
  have hAne : A.data ≠ [] := by rw [hdata]; simp
  have hNne : N.data ≠ [] := hN.1
  have hplain2 : ∀ s ∈ segs ++ [N.data], plainSeg s := by
    intro s hs
    rcases List.mem_append.1 hs with h | h
    · exact hplain s h
    · rw [List.mem_singleton.1 h]
      exact hN
  have hdata2 : (A ++ "/" ++ N).data = '/' :: joinSegs (segs ++ [N.data]) := by
    rw [String.data_append, String.data_append, hdata,
      joinSegs_append_singleton segs N.data hne]
    simp
  have hfix2 : normalizeL ((A ++ "/" ++ N).data) = (A ++ "/" ++ N).data := by
    rw [hdata2]
    exact normalizeL_fix_plain_abs (segs ++ [N.data]) (by simp) hplain2
  have hdataeq : A.data ++ '/' :: N.data = (A ++ "/" ++ N).data := by
    rw [String.data_append, String.data_append]
    simp
  have hjoin : joinSafePaths cwd [A, N] = A ++ "/" ++ N := by
    rw [joinSafePaths]
    show createSafePath cwd (String.mk (pathJoinL [A.data, N.data])) = _
    rw [pathJoinL_two A.data N.data hAne hNne, hdataeq, hfix2]
    show createSafePath cwd (A ++ "/" ++ N) = _
    refine createSafePath_fixed cwd _ ?_ (congrArg String.mk hfix2)
    rw [isAbsolute, hdata2]
    rfl
  exact ⟨hjoin, segs ++ [N.data], by simp, hplain2, hdata2⟩

/-- Appending a separator-free suffix to a structured absolute path just
extends its last segment. -/
theorem createSafePathWithSuffix_plain (cwd A suffix : String) (hA : PlainAbs A)
    (hs : '/' ∉ suffix.data) :
    createSafePathWithSuffix cwd A suffix = A ++ suffix ∧ PlainAbs (A ++ suffix) := by
  obtain ⟨segs, hne, hplain, hdata⟩ := hA
  obtain ⟨init, lseg, hconcat⟩ : ∃ init lseg, segs = init ++ [lseg] := by
    rcases List.eq_nil_or_concat segs with h | ⟨init, lseg, h⟩
    · exact absurd h hne
    · exact ⟨init, lseg, by rw [h, List.concat_eq_append]⟩
  have hlplain : plainSeg lseg :=
    hplain lseg (hconcat ▸ List.mem_append_right init (List.mem_cons_self lseg []))
  have hplain2 : ∀ s ∈ init ++ [lseg ++ suffix.data], plainSeg s := by
    intro s hsm
    rcases List.mem_append.1 hsm with h | h
    · exact hplain s (hconcat ▸ List.mem_append_left [lseg] h)
    · rw [List.mem_singleton.1 h]
      exact plainSeg_append_suffix lseg suffix.data hlplain hs
  have hdata2 : (A ++ suffix).data = '/' :: joinSegs (init ++ [lseg ++ suffix.data]) := by
    rw [String.data_append, hdata, hconcat]
    show '/' :: joinSegs (init ++ [lseg]) ++ suffix.data = _
    rw [show ('/' :: joinSegs (init ++ [lseg])) ++ suffix.data =
      '/' :: (joinSegs (init ++ [lseg]) ++ suffix.data) from rfl,
      joinSegs_concat_append init lseg suffix.data]
  have hpa2 : PlainAbs (A ++ suffix) := ⟨init ++ [lseg ++ suffix.data], by simp, hplain2, hdata2⟩
  refine ⟨?_, hpa2⟩
  exact createSafePath_of_plainAbs cwd hpa2

/-- `PlainAbs` follows from the four checkable conditions: absolute,
no trailing separator, fixed under normalization, not the root. -/
theorem plainAbs_of_checks (A : String) (habs : isAbsolute A = true)
    (htr : hasTrailingL A.data = false) (hfix : posixNormalize A = A)
    (hne : A ≠ "/") : PlainAbs A :=
  structure_of_normalizedAbs A.data habs htr (congrArg String.data hfix)
    (fun hc => hne (congrArg String.mk hc))

theorem plainAbs_ne_empty {A : String} (h : PlainAbs A) : A ≠ "" := by
  obtain ⟨segs, _, _, hdata⟩ := h
  intro hc
  rw [hc] at hdata
  simp at hdata

theorem getDefaultLogPath_eq (cwd : String) (h : PlainAbs cwd) :
    getDefaultLogPath cwd = cwd ++ "/logs" ∧ PlainAbs (cwd ++ "/logs") := by
  have hcs : createSafePath cwd cwd = cwd := createSafePath_of_plainAbs cwd h
  have hj := joinSafePaths_plain cwd cwd "logs" h (by decide)
  have hlit : cwd ++ "/" ++ "logs" = cwd ++ "/logs" := by
    rw [String.append_assoc]
    rfl
  rw [getDefaultLogPath, hcs]
  rw [hlit] at hj
  exact hj

/-- The filenames of the file-based transports (console and custom transports
carry no filename). -/
def fileSinkPaths : List Transport → List String
  | [] => []
  | Transport.dailyRotateFile fn _ _ :: ts => fn :: fileSinkPaths ts
  | Transport.file fn _ _ :: ts => fn :: fileSinkPaths ts
  | Transport.console _ :: ts => fileSinkPaths ts
  | Transport.custom _ :: ts => fileSinkPaths ts

theorem stringifyV_str (fuel : Nat) (s : String) :
    stringifyV (fuel + 1) (Json.str s) = quoteStr s := rfl

theorem parseEnvironment_eq_none (s : String) (h : isValidEnvironment s = false) :
    parseEnvironment s = none := by
  unfold isValidEnvironment at h
  unfold parseEnvironment
  simp only [Bool.or_eq_false_iff, decide_eq_false_iff_not] at h
  rw [if_neg h.1.1, if_neg h.1.2, if_neg h.2]

/-! ## Spec-side resolution (for the refinement comparison)

`specResolve` is written from the words of spec section 4.4: merge environment
defaults, then caller options per field, then the `logName` fallback `"app"`;
`logDirectory` defaults to `defaultLogPath()` if the caller supplied none,
otherwise it is `makePath(caller.logDirectory)`; `maxFileSize` is the caller's
value if supplied, else the environment default, else `megabytes(5)`.
`specResolveAmended` differs only where the code's truthiness test on
`options.logDirectory` forces it to: a caller-supplied *empty* `logDirectory`
also falls back to the default. -/

def specResolve (env : Environment) (cwd : String) (options : LoggerOptions) :
    MergedLoggerOptions :=
  let d := defaultOptions env
  { logName := nullishField options.logName "app"
    logDirectory :=
      match options.logDirectory with
      | some (some dir) => createSafePath cwd dir
      | _ => getDefaultLogPath cwd
    maxFileSize := nullishField options.maxFileSize (nullishField (some (some d.maxFileSize)) (MBval 5))
    level := spreadField d.level options.level
    enableFileLogging := spreadField d.enableFileLogging options.enableFileLogging
    maxFiles := spreadField d.maxFiles options.maxFiles
    separateErrorLog := spreadField d.separateErrorLog options.separateErrorLog
    separateWarnLog := spreadField d.separateWarnLog options.separateWarnLog
    useDailyRotation := spreadField d.useDailyRotation options.useDailyRotation
    enableConsoleLogging := spreadField d.enableConsoleLogging options.enableConsoleLogging
    prettyPrint := spreadField d.prettyPrint options.prettyPrint
    colorize := spreadField d.colorize options.colorize
    timestampFormat := passField options.timestampFormat
    locale := passField options.locale
    silent := passField options.silent
    handleExceptions := passField options.handleExceptions
    handleRejections := passField options.handleRejections
    customTransports := passField options.customTransports
    customFormat := passField options.customFormat }

def specResolveAmended (env : Environment) (cwd : String) (options : LoggerOptions) :
    MergedLoggerOptions :=
  let d := defaultOptions env
  { logName := nullishField options.logName "app"
    logDirectory :=
      match options.logDirectory with
      | some (some dir) => if dir = "" then getDefaultLogPath cwd else createSafePath cwd dir
      | _ => getDefaultLogPath cwd
    maxFileSize := nullishField options.maxFileSize (nullishField (some (some d.maxFileSize)) (MBval 5))
    level := spreadField d.level options.level
    enableFileLogging := spreadField d.enableFileLogging options.enableFileLogging
    maxFiles := spreadField d.maxFiles options.maxFiles
    separateErrorLog := spreadField d.separateErrorLog options.separateErrorLog
    separateWarnLog := spreadField d.separateWarnLog options.separateWarnLog
    useDailyRotation := spreadField d.useDailyRotation options.useDailyRotation
    enableConsoleLogging := spreadField d.enableConsoleLogging options.enableConsoleLogging
    prettyPrint := spreadField d.prettyPrint options.prettyPrint
    colorize := spreadField d.colorize options.colorize
    timestampFormat := passField options.timestampFormat
    locale := passField options.locale
    silent := passField options.silent
    handleExceptions := passField options.handleExceptions
    handleRejections := passField options.handleRejections
    customTransports := passField options.customTransports
    customFormat := passField options.customFormat }

/-! ## Claims -/

/-- C1: for every recognized environment, resolving with an empty
caller-options object yields exactly the environment-defaults table of spec
section 4.3 in the ten tabulated fields (development: debug, console on,
file on, pretty on, color on, 5 MB, 5 files, error log on, warn log on,
rotation off; production: info, console off, file on, pretty off, color off,
10 MB, 10 files, error log on, warn log off, rotation on; test: debug,
console off, file on, pretty off, color off, 1 MB, 2 files, error log on,
warn log off, rotation off). -/
theorem C1_env_defaults_table (cwd : String) :
    ((finalOptions Environment.development cwd emptyOptions).level = some LogLevel.debug ∧
      (finalOptions Environment.development cwd emptyOptions).enableConsoleLogging = some true ∧
      (finalOptions Environment.development cwd emptyOptions).enableFileLogging = some true ∧
      (finalOptions Environment.development cwd emptyOptions).prettyPrint = some true ∧
      (finalOptions Environment.development cwd emptyOptions).colorize = some true ∧
      (finalOptions Environment.development cwd emptyOptions).maxFileSize = MBval 5 ∧
      (finalOptions Environment.development cwd emptyOptions).maxFiles = some 5 ∧
      (finalOptions Environment.development cwd emptyOptions).separateErrorLog = some true ∧
      (finalOptions Environment.development cwd emptyOptions).separateWarnLog = some true ∧
      (finalOptions Environment.development cwd emptyOptions).useDailyRotation = some false) ∧
    ((finalOptions Environment.production cwd emptyOptions).level = some LogLevel.info ∧
      (finalOptions Environment.production cwd emptyOptions).enableConsoleLogging = some false ∧
      (finalOptions Environment.production cwd emptyOptions).enableFileLogging = some true ∧
      (finalOptions Environment.production cwd emptyOptions).prettyPrint = some false ∧
      (finalOptions Environment.production cwd emptyOptions).colorize = some false ∧
      (finalOptions Environment.production cwd emptyOptions).maxFileSize = MBval 10 ∧
      (finalOptions Environment.production cwd emptyOptions).maxFiles = some 10 ∧
      (finalOptions Environment.production cwd emptyOptions).separateErrorLog = some true ∧
      (finalOptions Environment.production cwd emptyOptions).separateWarnLog = some false ∧
      (finalOptions Environment.production cwd emptyOptions).useDailyRotation = some true) ∧
    ((finalOptions Environment.test cwd emptyOptions).level = some LogLevel.debug ∧
      (finalOptions Environment.test cwd emptyOptions).enableConsoleLogging = some false ∧
      (finalOptions Environment.test cwd emptyOptions).enableFileLogging = some true ∧
      (finalOptions Environment.test cwd emptyOptions).prettyPrint = some false ∧
      (finalOptions Environment.test cwd emptyOptions).colorize = some false ∧
      (finalOptions Environment.test cwd emptyOptions).maxFileSize = MBval 1 ∧
      (finalOptions Environment.test cwd emptyOptions).maxFiles = some 2 ∧
      (finalOptions Environment.test cwd emptyOptions).separateErrorLog = some true ∧
      (finalOptions Environment.test cwd emptyOptions).separateWarnLog = some false ∧
      (finalOptions Environment.test cwd emptyOptions).useDailyRotation = some false) := by
  exact ⟨⟨rfl, rfl, rfl, rfl, rfl, rfl, rfl, rfl, rfl, rfl⟩,
    ⟨rfl, rfl, rfl, rfl, rfl, rfl, rfl, rfl, rfl, rfl⟩,
    ⟨rfl, rfl, rfl, rfl, rfl, rfl, rfl, rfl, rfl, rfl⟩⟩

/-- C6: the resolved `maxFileSize` is the caller's value when supplied, else
the environment default, which itself stands in front of the (here always
unreachable) `megabytes(5)` fallback of the `??` chain. -/
theorem C6_maxFileSize_chain (e : Environment) (cwd : String) (opts : LoggerOptions) :
    (∀ v, opts.maxFileSize = some (some v) → (finalOptions e cwd opts).maxFileSize = v) ∧
    ((opts.maxFileSize = none ∨ opts.maxFileSize = some none) →
      (finalOptions e cwd opts).maxFileSize = (defaultOptions e).maxFileSize) ∧
    nullishField (some (some (defaultOptions e).maxFileSize)) (MBval 5) =
      (defaultOptions e).maxFileSize := by
  refine ⟨?_, ?_, rfl⟩
  · intro v hv
    show nullishField opts.maxFileSize (defaultOptions e).maxFileSize = v
    rw [hv]
    rfl
  · intro hv
    show nullishField opts.maxFileSize (defaultOptions e).maxFileSize = _
    rcases hv with h | h <;> (rw [h]; rfl)

/-- C6 witness. -/
theorem C6_maxFileSize_chain_witness :
    (finalOptions Environment.production "/srv"
      { emptyOptions with maxFileSize := some (some 77) }).maxFileSize = 77 ∧
    (finalOptions Environment.production "/srv" emptyOptions).maxFileSize = MBval 10 :=
  ⟨(C6_maxFileSize_chain Environment.production "/srv"
      { emptyOptions with maxFileSize := some (some 77) }).1 77 rfl,
    (C6_maxFileSize_chain Environment.production "/srv" emptyOptions).2.1 (Or.inl rfl)⟩

/-- C10: a caller field that is present but explicitly `undefined` overrides
the environment default with `undefined` (object-spread semantics), for every
spread field such as `level` or `enableFileLogging`. -/
theorem C10_explicit_undefined_wins (e : Environment) (cwd : String) (opts : LoggerOptions) :
    (opts.level = some none → (finalOptions e cwd opts).level = none) ∧
    (opts.enableFileLogging = some none → (finalOptions e cwd opts).enableFileLogging = none) ∧
    (opts.enableConsoleLogging = some none →
      (finalOptions e cwd opts).enableConsoleLogging = none) ∧
    (opts.prettyPrint = some none → (finalOptions e cwd opts).prettyPrint = none) ∧
    (opts.colorize = some none → (finalOptions e cwd opts).colorize = none) ∧
    (opts.maxFiles = some none → (finalOptions e cwd opts).maxFiles = none) ∧
    (opts.separateErrorLog = some none → (finalOptions e cwd opts).separateErrorLog = none) ∧
    (opts.separateWarnLog = some none → (finalOptions e cwd opts).separateWarnLog = none) ∧
    (opts.useDailyRotation = some none → (finalOptions e cwd opts).useDailyRotation = none) := by
  refine ⟨?_, ?_, ?_, ?_, ?_, ?_, ?_, ?_, ?_⟩ <;>
    (intro h; show spreadField _ _ = none; rw [h]; rfl)

/-- C10 witness. -/
theorem C10_explicit_undefined_wins_witness :
    (finalOptions Environment.production "/srv"
      { emptyOptions with level := some none }).level = none ∧
    (finalOptions Environment.production "/srv"
      { emptyOptions with enableFileLogging := some none }).enableFileLogging = none :=
  ⟨(C10_explicit_undefined_wins Environment.production "/srv"
      { emptyOptions with level := some none }).1 rfl,
    (C10_explicit_undefined_wins Environment.production "/srv"
      { emptyOptions with enableFileLogging := some none }).2.1 rfl⟩

/-- C7: `megabytes(n)` equals `n * 1,048,576` for `n ≥ 0`, `bytes(n)` fails
with `InvalidSize` for `n < 0`, and there is no upper bound check. -/
theorem C7_byte_helpers :
    (∀ n : Int, 0 ≤ n → MB n = Except.ok (n * 1048576)) ∧
    (∀ n : Int, n < 0 →
      createBytes n = Except.error (LogError.invalidSize "Bytes cannot be negative")) ∧
    (∀ n : Int, 0 ≤ n → createBytes n = Except.ok n) := by
  refine ⟨?_, ?_, ?_⟩
  · intro n hn
    have hval : MBval n = n * 1048576 := by
      unfold MBval
      ring
    unfold MB createBytes
    rw [hval, if_neg (by omega)]
  · intro n hn
    unfold createBytes
    rw [if_pos hn]
  · intro n hn
    unfold createBytes
    rw [if_neg (by omega)]

/-- C7 witness. -/
theorem C7_byte_helpers_witness :
    MB 3 = Except.ok 3145728 ∧
    createBytes (-1) = Except.error (LogError.invalidSize "Bytes cannot be negative") ∧
    createBytes 123456789012345 = Except.ok 123456789012345 :=
  ⟨C7_byte_helpers.1 3 (by decide), C7_byte_helpers.2.1 (-1) (by decide),
    C7_byte_helpers.2.2 123456789012345 (by decide)⟩

/-- The file path derived by `createLogPath` in the source:
`withSuffix(joinPaths(joinPaths(logDirectory, logName), logName), suffix)`. -/
def derivedFilePath (cwd : String) (f : MergedLoggerOptions) (suffix : String) : String :=
  createSafePathWithSuffix cwd
    (joinSafePaths cwd [joinSafePaths cwd [f.logDirectory, f.logName], f.logName]) suffix

/-- Normal form of the transport list built by `createLogger`. -/
theorem buildTransports_shape (cwd : String) (f : MergedLoggerOptions) :
    buildTransports cwd f =
      (if truthy f.enableConsoleLogging then
        [Transport.console (consoleFormatChoice f)] else [])
      ++ (if truthy f.enableFileLogging then
            (if truthy f.useDailyRotation then
              [Transport.dailyRotateFile (derivedFilePath cwd f "-%DATE%.log") "YYYY-MM-DD"
                (baseFileOptions f)]
            else
              [Transport.file (derivedFilePath cwd f "-All.log") none (baseFileOptions f)])
            ++ (if truthy f.separateErrorLog then
                  [Transport.file (derivedFilePath cwd f "-error.log") (some LogLevel.error)
                    (baseFileOptions f)]
                else [])
            ++ (if truthy f.separateWarnLog then
                  [Transport.file (derivedFilePath cwd f "-warn.log") (some LogLevel.warn)
                    (baseFileOptions f)]
                else [])
          else [])
      ++ (f.customTransports.getD []) := by
  unfold buildTransports derivedFilePath
  cases htC : truthy f.enableConsoleLogging <;>
    cases htF : truthy f.enableFileLogging <;>
      cases htR : truthy f.useDailyRotation <;>
        cases htE : truthy f.separateErrorLog <;>
          cases htW : truthy f.separateWarnLog <;>
            cases htX : f.customTransports <;>
              simp [htC, htF, htR, htE, htW, htX]

/-- C2: the transport list is, in order: the console sink when console logging
is enabled; then, when file logging is enabled, exactly one of the rotated or
the combined file sink, then the error file sink when enabled, then the warn
file sink when enabled; finally the caller's custom sinks unmodified in the
caller's order. -/
theorem C2_transport_order (cwd : String) (f : MergedLoggerOptions) :
    buildTransports cwd f =
      (if truthy f.enableConsoleLogging then
        [Transport.console (consoleFormatChoice f)] else [])
      ++ (if truthy f.enableFileLogging then
            (if truthy f.useDailyRotation then
              [Transport.dailyRotateFile (derivedFilePath cwd f "-%DATE%.log") "YYYY-MM-DD"
                (baseFileOptions f)]
            else
              [Transport.file (derivedFilePath cwd f "-All.log") none (baseFileOptions f)])
            ++ (if truthy f.separateErrorLog then
                  [Transport.file (derivedFilePath cwd f "-error.log") (some LogLevel.error)
                    (baseFileOptions f)]
                else [])
            ++ (if truthy f.separateWarnLog then
                  [Transport.file (derivedFilePath cwd f "-warn.log") (some LogLevel.warn)
                    (baseFileOptions f)]
                else [])
          else [])
      ++ (f.customTransports.getD []) :=
  buildTransports_shape cwd f

/-- C3 (amended): a nonempty unrecognized environment string makes
`createLogger` fail with `InvalidEnvironment` whose message contains the
offending string; an absent — or, contrary to the original claim, an
empty — `NODE_ENV` warns and proceeds with development defaults. -/
theorem C3_environment_validation :
    (∀ (s cwd : String) (opts : LoggerOptions),
      isValidEnvironment s = false → s ≠ "" →
      createLoggerModel (some s) cwd opts =
        Except.error (LogError.invalidEnvironment ("Invalid environment: " ++ s)) ∧
      ∃ pre suf, "Invalid environment: " ++ s = pre ++ s ++ suf) ∧
    (∀ (cwd : String) (opts : LoggerOptions),
      createLoggerModel none cwd opts =
        (createLoggerModel (some "development") cwd opts).map
          (fun r => { r with warned := true })) ∧
    (∀ (cwd : String) (opts : LoggerOptions),
      createLoggerModel (some "") cwd opts =
        (createLoggerModel (some "development") cwd opts).map
          (fun r => { r with warned := true })) := by
  refine ⟨?_, ?_, ?_⟩
  · intro s cwd opts hval hs
    have henv : parseEnvironment s = none := parseEnvironment_eq_none s hval
    refine ⟨?_, "Invalid environment: ", "", by rw [String.append_empty]⟩
    simp only [createLoggerModel, if_neg hs, henv]
  · intro cwd opts
    rfl
  · intro cwd opts
    rfl

/-- C3 counterexample to the original claim: with the ambient environment
variable set to the empty string, `createLogger` succeeds (it does not raise
`InvalidEnvironment`). -/
theorem C3_counterexample :
    exceptOk (createLoggerModel (some "") "/srv" emptyOptions) = true := rfl

/-- C3 witness. -/
theorem C3_environment_validation_witness :
    createLoggerModel (some "staging") "/srv" emptyOptions =
      Except.error (LogError.invalidEnvironment ("Invalid environment: " ++ "staging")) :=
  (C3_environment_validation.1 "staging" "/srv" emptyOptions (by decide) (by decide)).1

/-- C8: with `prettyPrint` truthy and no custom formatter the console sink
gets the doge formatter; that formatter rewrites a message that is JSON-object
text beginning with a brace entry-by-entry into `"k" such "v"` joined by
`", "` inside `< wow ... >`, and leaves a message that does not begin with a
brace, or fails to parse, unchanged; in particular the raw message
`'\x7b"test":"value"\x7d'` renders as `< wow "test" such "value" >`. -/
theorem C8_pretty_console_format :
    (∀ f : MergedLoggerOptions, truthy f.prettyPrint = true → f.customFormat = none →
      consoleFormatChoice f = ConsoleFmt.builtin true (truthy f.colorize)) ∧
    (∀ m : String, m.data.head? ≠ some lbrace → prettyTransform m = m) ∧
    (∀ m : String, jsonParse m = none → prettyTransform m = m) ∧
    (∀ (m : String) (es : List (String × String)),
      m.data.head? = some lbrace →
      jsonParse m = some (Json.obj (es.map (fun kv => (kv.1, Json.str kv.2)))) →
      prettyTransform m = String.mk ("< wow ".data ++
        commaSpaceJoin (es.map (fun kv => quoteStr kv.1 ++ " such ".data ++ quoteStr kv.2))
        ++ " >".data)) ∧
    prettyTransform (String.mk (lbrace :: "\"test\":\"value\"".data ++ [rbrace])) =
      "< wow \"test\" such \"value\" >" ∧
    prettyTransform (String.mk (lbrace :: "\"a\":\"x\",\"b\":\"y\"".data ++ [rbrace])) =
      "< wow \"a\" such \"x\", \"b\" such \"y\" >" := by
  have hcons : ∀ (m : String) (c : Char) (rest : List Char), m.data = c :: rest →
      prettyTransform m =
        (if c = lbrace then
          match jsonParse m with
          | some (Json.obj es) =>
            String.mk ("< wow ".data ++
              commaSpaceJoin (es.map (wowEntry ((c :: rest).length + 1))) ++ " >".data)
          | _ => m
        else m) := by
    intro m c rest hd
    unfold prettyTransform
    rw [hd]
  have hnil : ∀ m : String, m.data = [] → prettyTransform m = m := by
    intro m hd
    unfold prettyTransform
    rw [hd]
  refine ⟨?_, ?_, ?_, ?_, by decide, by decide⟩
  · intro f hp hc
    unfold consoleFormatChoice
    rw [hc, hp]
  · intro m hm
    cases hd : m.data with
    | nil => exact hnil m hd
    | cons c rest =>
      rw [hcons m c rest hd, if_neg (fun hc => hm (by rw [hd, hc]; rfl))]
  · intro m hm
    cases hd : m.data with
    | nil => exact hnil m hd
    | cons c rest =>
      rw [hcons m c rest hd]
      by_cases hc : c = lbrace
      · rw [if_pos hc, hm]
      · rw [if_neg hc]
  · intro m es hhead hparse
    cases hd : m.data with
    | nil =>
      rw [hd] at hhead
      simp at hhead
    | cons c rest =>
      rw [hd] at hhead
      have hc : c = lbrace := by
        simpa using hhead
      rw [hcons m c rest hd, if_pos hc, hparse]
      show String.mk ("< wow ".data ++
        commaSpaceJoin ((es.map (fun kv => (kv.1, Json.str kv.2))).map
          (wowEntry ((c :: rest).length + 1))) ++ " >".data) = _
      rw [List.map_map]
      rfl

/-- C8 witness. -/
theorem C8_pretty_console_format_witness :
    prettyTransform "hello" = "hello" ∧
    prettyTransform (String.mk (lbrace :: "oops".data)) =
      String.mk (lbrace :: "oops".data) ∧
    consoleFormatChoice (finalOptions Environment.development "/srv" emptyOptions) =
      ConsoleFmt.builtin true true :=
  ⟨C8_pretty_console_format.2.1 "hello" (by decide),
    C8_pretty_console_format.2.2.1 (String.mk (lbrace :: "oops".data)) rfl,
    C8_pretty_console_format.1 (finalOptions Environment.development "/srv" emptyOptions)
      rfl rfl⟩

/-- C9: `createSafePath` is idempotent, total (it never fails), and always
yields an absolute path fixed under normalization, resolving relative inputs
against the (absolute) working directory. -/
theorem C9_makePath_idempotent (cwd x : String) (hcwd : isAbsolute cwd = true) :
    createSafePath cwd (createSafePath cwd x) = createSafePath cwd x ∧
    isAbsolute (createSafePath cwd x) = true ∧
    posixNormalize (createSafePath cwd x) = createSafePath cwd x := by
  obtain ⟨h1, h2⟩ := createSafePath_props cwd x hcwd
  exact ⟨createSafePath_idem cwd x hcwd, h2, h1⟩

/-- C9 witness. -/
theorem C9_makePath_idempotent_witness :
    isAbsolute "/srv" = true ∧
    createSafePath "/srv" (createSafePath "/srv" "x/y/..//z/") =
      createSafePath "/srv" "x/y/..//z/" ∧
    isAbsolute (createSafePath "/srv" "x/y/..//z/") = true :=
  ⟨by decide, (C9_makePath_idempotent "/srv" "x/y/..//z/" (by decide)).1,
    (C9_makePath_idempotent "/srv" "x/y/..//z/" (by decide)).2.1⟩

/-- C5 (amended): the resolved configuration is the spec-described per-field
merge, except that a caller-supplied **empty** `logDirectory` also falls back
to the default directory (the code tests `options.logDirectory` for
truthiness, not just presence); with no `logDirectory`, the directory used for
files is `<cwd>/logs/<logName>`. -/
theorem C5_option_merge (e : Environment) (cwd : String) (opts : LoggerOptions) :
    finalOptions e cwd opts = specResolveAmended e cwd opts ∧
    (PlainAbs cwd → opts.logDirectory = none →
      plainSeg ((finalOptions e cwd opts).logName).data →
      joinSafePaths cwd
        [(finalOptions e cwd opts).logDirectory, (finalOptions e cwd opts).logName] =
      cwd ++ "/logs/" ++ (finalOptions e cwd opts).logName) := by
  constructor
  · have hld : (if truthyStringField opts.logDirectory then
        createSafePath cwd (nullishField opts.logDirectory "")
        else getDefaultLogPath cwd) =
        (match opts.logDirectory with
          | some (some dir) =>
            if dir = "" then getDefaultLogPath cwd else createSafePath cwd dir
          | _ => getDefaultLogPath cwd) := by
      rcases opts.logDirectory with _ | (_ | d)
      · rfl
      · rfl
      · by_cases hd : d = ""
        · subst hd
          rfl
        · have hie : d.isEmpty = false := by
            cases hie2 : d.isEmpty
            · rfl
            · exact absurd ((String.isEmpty_iff d).1 hie2) hd
          have ht : truthyStringField (some (some d)) = true := by
            simp [truthyStringField, hie]
          rw [ht]
          show createSafePath cwd d = if d = "" then getDefaultLogPath cwd else createSafePath cwd d
          rw [if_neg hd]
    unfold finalOptions specResolveAmended
    rw [hld]
    rfl
  · intro hcwd hdir hname
    have hldir : (finalOptions e cwd opts).logDirectory = getDefaultLogPath cwd := by
      show (if truthyStringField opts.logDirectory then _ else _) = _
      rw [hdir]
      rfl
    obtain ⟨hdef, hpa⟩ := getDefaultLogPath_eq cwd hcwd
    rw [hldir, hdef]
    obtain ⟨hj, _⟩ := joinSafePaths_plain cwd (cwd ++ "/logs")
      ((finalOptions e cwd opts).logName) hpa hname
    rw [hj]
    have hassoc : (cwd ++ "/logs") ++ "/" = cwd ++ "/logs/" := by
      rw [String.append_assoc]
      rfl
    rw [hassoc]

/-- C5 counterexample to the original claim: with a caller-supplied empty
`logDirectory`, the code resolves to the default `<cwd>/logs`, not to
`makePath("")` as the spec's merge rule dictates. -/
theorem C5_counterexample :
    finalOptions Environment.development "/srv"
        { emptyOptions with logDirectory := some (some "") } ≠
      specResolve Environment.development "/srv"
        { emptyOptions with logDirectory := some (some "") } := by
  decide

/-- C5 witness. -/
theorem C5_option_merge_witness :
    joinSafePaths "/srv"
      [(finalOptions Environment.development "/srv" emptyOptions).logDirectory,
        (finalOptions Environment.development "/srv" emptyOptions).logName] =
      "/srv" ++ "/logs/" ++ (finalOptions Environment.development "/srv" emptyOptions).logName :=
  (C5_option_merge Environment.development "/srv" emptyOptions).2
    (plainAbs_of_checks "/srv" (by decide) (by decide) (by decide) (by decide))
    rfl (by decide)

theorem fileSinkPaths_append (a b : List Transport) :
    fileSinkPaths (a ++ b) = fileSinkPaths a ++ fileSinkPaths b := by
  induction a with
  | nil => rfl
  | cons t ts ih =>
    cases t <;> simp [fileSinkPaths, ih]

/-- C4: with a caller-supplied `logDirectory` D (a normalized absolute
directory path) and a plain `logName` N, file logging with separate error and
warn logs enabled, and no custom transports, the file sinks' paths are exactly
`D/N/N-All.log` (or `D/N/N-%DATE%.log` under daily rotation), `D/N/N-error.log`
and `D/N/N-warn.log`: each is the join of D and N, joined again with N, with
the respective suffix appended. -/
theorem C4_file_sink_paths (e : Environment) (cwd D N : String) (opts : LoggerOptions)
    (hD : PlainAbs D) (hN : plainSeg N.data)
    (hdir : opts.logDirectory = some (some D))
    (hname : opts.logName = some (some N))
    (hfile : opts.enableFileLogging = some (some true))
    (herr : opts.separateErrorLog = some (some true))
    (hwarn : opts.separateWarnLog = some (some true))
    (hcust : opts.customTransports = none) :
    fileSinkPaths (buildTransports cwd (finalOptions e cwd opts)) =
      [D ++ "/" ++ N ++ "/" ++ N ++
          (if truthy (finalOptions e cwd opts).useDailyRotation
            then "-%DATE%.log" else "-All.log"),
        D ++ "/" ++ N ++ "/" ++ N ++ "-error.log",
        D ++ "/" ++ N ++ "/" ++ N ++ "-warn.log"] := by
  have hDne : D ≠ "" := plainAbs_ne_empty hD
  have hfl : (finalOptions e cwd opts).logDirectory = D := by
    show (if truthyStringField opts.logDirectory then
      createSafePath cwd (nullishField opts.logDirectory "") else _) = D
    rw [hdir]
    have hie : D.isEmpty = false := by
      cases hie2 : D.isEmpty
      · rfl
      · exact absurd ((String.isEmpty_iff D).1 hie2) hDne
    have ht : truthyStringField (some (some D)) = true := by
      simp [truthyStringField, hie]
    rw [ht]
    show createSafePath cwd D = D
    exact createSafePath_of_plainAbs cwd hD
  have hfn : (finalOptions e cwd opts).logName = N := by
    show nullishField opts.logName "app" = N
    rw [hname]
    rfl
  have hffile : truthy (finalOptions e cwd opts).enableFileLogging = true := by
    show truthy (spreadField _ opts.enableFileLogging) = true
    rw [hfile]
    rfl
  have hferr : truthy (finalOptions e cwd opts).separateErrorLog = true := by
    show truthy (spreadField _ opts.separateErrorLog) = true
    rw [herr]
    rfl
  have hfwarn : truthy (finalOptions e cwd opts).separateWarnLog = true := by
    show truthy (spreadField _ opts.separateWarnLog) = true
    rw [hwarn]
    rfl
  have hfcust : (finalOptions e cwd opts).customTransports = none := by
    show passField opts.customTransports = none
    rw [hcust]
    rfl
  obtain ⟨hj1, hpa1⟩ := joinSafePaths_plain cwd D N hD hN
  obtain ⟨hj2, hpa2⟩ := joinSafePaths_plain cwd (D ++ "/" ++ N) N hpa1 hN
  have hpath : ∀ suffix : String, '/' ∉ suffix.data →
      derivedFilePath cwd (finalOptions e cwd opts) suffix =
        D ++ "/" ++ N ++ "/" ++ N ++ suffix := by
    intro suffix hsuf
    unfold derivedFilePath
    rw [hfl, hfn, hj1, hj2]
    exact (createSafePathWithSuffix_plain cwd (D ++ "/" ++ N ++ "/" ++ N) suffix hpa2 hsuf).1
  rw [buildTransports_shape, hffile, hferr, hfwarn, hfcust]
  simp only [if_pos rfl]
  rw [fileSinkPaths_append, fileSinkPaths_append]
  have hconsole : fileSinkPaths
      (if truthy (finalOptions e cwd opts).enableConsoleLogging then
        [Transport.console (consoleFormatChoice (finalOptions e cwd opts))] else []) = [] := by
    cases htC : truthy (finalOptions e cwd opts).enableConsoleLogging <;>
      simp [fileSinkPaths]
  rw [hconsole]
  cases hrot : truthy (finalOptions e cwd opts).useDailyRotation <;>
    simp [fileSinkPaths, hpath "-%DATE%.log" (by decide), hpath "-All.log" (by decide),
      hpath "-error.log" (by decide), hpath "-warn.log" (by decide), Option.getD]

/-- C4 witness. -/
theorem C4_file_sink_paths_witness :
    fileSinkPaths (buildTransports "/srv" (finalOptions Environment.production "/srv"
      { emptyOptions with
          logDirectory := some (some "/var/logz")
          logName := some (some "app")
          enableFileLogging := some (some true)
          separateErrorLog := some (some true)
          separateWarnLog := some (some true) })) =
      ["/var/logz" ++ "/" ++ "app" ++ "/" ++ "app" ++
          (if truthy (finalOptions Environment.production "/srv"
              { emptyOptions with
                  logDirectory := some (some "/var/logz")
                  logName := some (some "app")
                  enableFileLogging := some (some true)
                  separateErrorLog := some (some true)
                  separateWarnLog := some (some true) }).useDailyRotation
            then "-%DATE%.log" else "-All.log"),
        "/var/logz" ++ "/" ++ "app" ++ "/" ++ "app" ++ "-error.log",
        "/var/logz" ++ "/" ++ "app" ++ "/" ++ "app" ++ "-warn.log"] :=
  C4_file_sink_paths Environment.production "/srv" "/var/logz" "app" _
    (plainAbs_of_checks "/var/logz" (by decide) (by decide) (by decide) (by decide))
    (by decide) rfl rfl rfl rfl rfl rfl

end LogFactory
